import Mathlib

/-!
Shallow embedding of `src/metaheuristic_algorithms.py` (the core of the
Cloud-Load-Balancing-Optimization repository): the shared node/task model,
the four allocation strategies (Lion, Bat, Crow, Monarch), fault injection,
the simulation runner and the metrics reduction.

Modelling conventions:
* Python floats are modelled as rationals (`ℚ`); the numeric literals
  0.3, 0.8, 0.1, … become 3/10, 4/5, 1/10, ….
* The process-wide random source is modelled by explicit oracle values:
  every probabilistic comparison with a fixed probability strictly between
  0 and 1 becomes a `Bool` oracle field (both outcomes are reachable), the
  Bat pulse comparison `random.random() > pulse_rate` keeps the numeric
  value `Int.fract q ∈ [0,1)` because `pulse_rate` is compared against it,
  `random.choice` / `random.sample` draw through `ℕ` oracles reduced
  modulo the live population size.
* Node dicts are aliased all over the Python code (territories, nomads and
  the Crow memory hold references into the pool), so the embedding stores
  pool *indices* everywhere and reads the live pool through `nd`.
  Node ids are unique in every program-generated pool, hence Python's
  value (in)equality on node dicts coincides with index (in)equality.
* A Python exception (the Crow `IndexError` on a short memory list) is the
  `none` component of `Option Bool`; the accompanying state is the state
  at the moment the exception is raised.
-/

set_option linter.unusedVariables false
set_option maxRecDepth 20000

namespace MH

/-- A simulated compute host: one dict built by
`MetaheuristicAlgorithm.initialize_nodes`. -/
structure Node where
  id : ℕ
  pe : ℕ
  node_mips : ℕ
  capacity : ℚ
  current_load : ℚ
  failed : Bool
  energy_coefficient : ℚ
deriving DecidableEq

instance : Inhabited Node := ⟨⟨0, 0, 0, 0, 0, false, 0⟩⟩

/-- A unit of demand: one dict built by `generate_tasks`;
`id = -1` marks the synthetic migration task built inside
`simulate_failure`. -/
structure Task where
  id : ℤ
  length : ℚ
  pe : ℕ
  mips_required : ℚ
  priority : ℕ
deriving DecidableEq

/-- A Lion territory: `{'nodes': …, 'best_fitness': inf, 'best_node': None}`,
with the node list kept as pool indices and `float('inf')` as `⊤`. -/
structure Territory where
  idxs : List ℕ
  best_fitness : WithTop ℚ
  best_node : Option ℕ
deriving DecidableEq

/-- The four strategy subclasses, as a closed tagged union. -/
inductive AlgKind
  | lion
  | bat
  | crow
  | monarch
deriving DecidableEq

/-- The mutable state of one strategy instance: the base-class fields
together with every subclass field (each variant touches only its own). -/
structure AlgState where
  num_nodes : ℕ
  num_tasks : ℕ
  nodes : List Node
  tasks : List Task
  fault_probability : ℚ
  min_nodes_for_operation : ℕ
  completed_tasks : ℤ
  pride_size : ℕ
  territories : List Territory
  nomads : List ℕ
  migration_threshold : ℚ
  loudness : ℚ
  pulse_rate : ℚ
  memory : List (Option (ℕ × ℚ))
  flight_length : ℚ
  bar : ℚ
deriving DecidableEq

/-- Live read of pool slot `i` (out-of-range reads give the default node,
whose capacity 0 is filtered out by every strategy). -/
def nd (s : AlgState) (i : ℕ) : Node := s.nodes.getD i default

/-- Python `min(xs, key=f)`: the first element attaining the least key. -/
def argminKey {α β : Type} [LinearOrder β] (f : α → β) : List α → Option α
  | [] => none
  | a :: l => some (l.foldl (fun b x => if f x < f b then x else b) a)

/-- Python `max(xs, key=f)`: the first element attaining the greatest key. -/
def argmaxKey {α β : Type} [LinearOrder β] (f : α → β) : List α → Option α
  | [] => none
  | a :: l => some (l.foldl (fun b x => if f b < f x then x else b) a)

/-- Insert into a descending-sorted list, after equal keys (stability). -/
def insertDesc {α β : Type} [LinearOrder β] (f : α → β) (a : α) : List α → List α
  | [] => [a]
  | b :: l => if f b ≤ f a then a :: b :: l else b :: insertDesc f a l

/-- Python `sorted(xs, key=f, reverse=True)`: stable descending sort. -/
def sortDesc {α β : Type} [LinearOrder β] (f : α → β) : List α → List α
  | [] => []
  | a :: l => insertDesc f a (sortDesc f l)

/-- Python `random.sample(l, k)`: the oracle `g` selects which remaining
element each draw removes; every possible sample is realised by some `g`
and every `g` realises a valid sample. -/
def sampleIdx {α : Type} (g : ℕ → ℕ) : ℕ → List α → List α
  | 0, _ => []
  | _ + 1, [] => []
  | k + 1, a :: t =>
    let i := g k % (a :: t).length
    (a :: t).getD i a :: sampleIdx g k ((a :: t).eraseIdx i)

/-- Python `int(q)` on a nonnegative/any rational: truncation toward 0. -/
def truncToInt (q : ℚ) : ℤ := Int.sign q.num * (q.num.natAbs / q.den : ℕ)

/-- Python `random.randint(a, b)` realised from an oracle draw `r`. -/
def randint (a b r : ℕ) : ℕ := a + r % (b - a + 1)

/-- Indices of not-failed nodes: the base-class filter
`[n for n in self.nodes if not n['failed']]`. -/
def aliveIdxs (s : AlgState) : List ℕ :=
  (List.range s.nodes.length).filter fun i => !(nd s i).failed

/-- Indices of not-failed, positive-capacity nodes: the strategy filter
`[n for n in self.nodes if not n['failed'] and n['capacity'] > 0]`. -/
def activeIdxs (s : AlgState) : List ℕ :=
  (List.range s.nodes.length).filter fun i =>
    !(nd s i).failed && decide (0 < (nd s i).capacity)

/-- `node['current_load'] += d` on pool slot `j`. -/
def addLoad (s : AlgState) (j : ℕ) (d : ℚ) : AlgState :=
  { s with nodes := s.nodes.set j { nd s j with current_load := (nd s j).current_load + d } }

/-- `node['current_load'] = v` on pool slot `j`. -/
def setLoad (s : AlgState) (j : ℕ) (v : ℚ) : AlgState :=
  { s with nodes := s.nodes.set j { nd s j with current_load := v } }

/-- `node['failed'] = True` on pool slot `j`. -/
def setFailed (s : AlgState) (j : ℕ) : AlgState :=
  { s with nodes := s.nodes.set j { nd s j with failed := true } }

/-- `sum(1 for n in self.nodes if n['failed'])`. -/
def countFailed (s : AlgState) : ℕ := (s.nodes.filter (·.failed)).length

/-- Oracle draws consumed by the constructors (`initialize_nodes` and
`generate_tasks`). -/
structure InitRand where
  node_mips : ℕ → ℕ
  node_cap : ℕ → ℕ
  node_ec : ℕ → ℚ
  task_len : ℕ → ℕ
  task_mips : ℕ → ℕ
  task_prio : ℕ → ℕ

/-- `MetaheuristicAlgorithm.initialize_nodes`: note the source draws the
`mips` field and the capacity factor with two independent randint calls. -/
def initialize_nodes (g : InitRand) (num_nodes : ℕ) : List Node :=
  (List.range num_nodes).map fun i =>
    { id := i
      pe := 4
      node_mips := randint 2000 4000 (g.node_mips i)
      capacity := (4 * randint 2000 4000 (g.node_cap i) : ℕ)
      current_load := 0
      failed := false
      energy_coefficient := 1 / 1000 + Int.fract (g.node_ec i) * (2 / 1000) }

/-- `MetaheuristicAlgorithm.generate_tasks`. -/
def generate_tasks (g : InitRand) (num_tasks : ℕ) : List Task :=
  (List.range num_tasks).map fun (i : ℕ) =>
    { id := (i : ℤ)
      length := (randint 200 4000 (g.task_len i) : ℕ)
      pe := 1
      mips_required := (randint 200 4000 (g.task_mips i) : ℕ)
      priority := 1 + g.task_prio i % 3 }

/-- `for i in range(0, num_nodes, pride_size): nodes[i:i+pride_size]`,
as index blocks: block `c` is `[c*k, min(c*k+k, n))`. -/
def chunkIdxs (n k : ℕ) : List (List ℕ) :=
  (List.range ((n + k - 1) / k)).map fun c => List.range' (c * k) (min k (n - c * k))

/-- `LionOptimizationLB._initialize_territories`. -/
def initialize_territories (num_nodes pride_size : ℕ) : List Territory :=
  let ts := ((chunkIdxs num_nodes pride_size).filter fun c => decide (2 ≤ c.length)).map
    fun c => { idxs := c, best_fitness := ⊤, best_node := none }
  if ts = [] then
    [{ idxs := List.range num_nodes, best_fitness := ⊤, best_node := none }]
  else ts

/-- Constructor state shared by all four variants (`__init__` of the base
class plus every subclass `__init__`; fields of other variants are inert). -/
def mkAlgState (g : InitRand) (num_nodes num_tasks : ℕ) : AlgState :=
  { num_nodes := num_nodes
    num_tasks := num_tasks
    nodes := initialize_nodes g num_nodes
    tasks := generate_tasks g num_tasks
    fault_probability := 1 / 20
    min_nodes_for_operation := 3
    completed_tasks := 0
    pride_size := max 5 (num_nodes / 4)
    territories := initialize_territories num_nodes (max 5 (num_nodes / 4))
    nomads := []
    migration_threshold := 4 / 5
    loudness := 1 / 2
    pulse_rate := 1 / 2
    memory := List.replicate num_nodes none
    flight_length := 1 / 10
    bar := 5 }

/-- Per-call randomness of `LionOptimizationLB.allocate_task`:
`explore t` is the `random.random() < 0.7` outcome for territory `t`,
`sample t` drives `random.sample` in that territory. -/
structure LionRand where
  explore : ℕ → Bool
  sample : ℕ → ℕ → ℕ

/-- Per-call randomness of `BatAlgorithm.allocate_task`: `Int.fract q` is
the `random.random()` value compared with `pulse_rate`, `pick` drives
`random.choice`. -/
structure BatRand where
  q : ℚ
  pick : ℕ

/-- Per-call randomness of `MonarchButterflyOptimization.allocate_task`. -/
structure MonarchRand where
  migrate : Bool
  pick : ℕ

/-- Randomness for one `allocate_task` call of whichever variant runs. -/
structure AllocRand where
  lion : LionRand
  bat : BatRand
  monarch : MonarchRand

/-- Randomness of one `simulate_failure` call (the choice of the node and
the `random.random() < fault_probability` roll). -/
structure FailRand where
  pick : ℕ
  roll : Bool

/-- Randomness of one iteration of the `run` loop. -/
structure StepRand where
  alloc : AllocRand
  doFail : Bool
  failr : FailRand
  mig : AllocRand

/-- `LionOptimizationLB._calculate_fitness`. -/
def calculate_fitness (n : Node) : WithTop ℚ :=
  if n.failed || decide (n.capacity ≤ 0) then ⊤
  else ((n.current_load / n.capacity) * 100 : ℚ)

/-- Active positive-capacity members of one territory. -/
def terrActive (s : AlgState) (terr : Territory) : List ℕ :=
  terr.idxs.filter fun i => !(nd s i).failed && decide (0 < (nd s i).capacity)

/-- The loop of `LionOptimizationLB._hunting_phase` over the territory
list, `t` being the position of the head territory in `s.territories`. -/
def huntingAux (r : LionRand) (task : Task) (s : AlgState) :
    ℕ → List Territory → Bool × AlgState
  | _, [] => (false, s)
  | t, terr :: rest =>
    let act := terrActive s terr
    if act.length < 2 then huntingAux r task s (t + 1) rest
    else if r.explore t then
      let numHunters := max 2 (min (act.length / 2) act.length)
      let hunters := sampleIdx (r.sample t) numHunters act
      match argminKey (fun i => calculate_fitness (nd s i)) hunters with
      | none => huntingAux r task s (t + 1) rest
      | some best =>
        if (nd s best).current_load + task.mips_required ≤ (nd s best).capacity then
          let s1 := addLoad s best task.mips_required
          let fit := calculate_fitness (nd s1 best)
          let terr2 : Territory := { terr with best_fitness := fit, best_node := some best }
          if fit < terr.best_fitness then
            (true, { s1 with territories := s1.territories.set t terr2 })
          else (true, s1)
        else huntingAux r task s (t + 1) rest
    else huntingAux r task s (t + 1) rest

/-- `LionOptimizationLB._hunting_phase`. -/
def huntingPhase (r : LionRand) (task : Task) (s : AlgState) : Bool × AlgState :=
  huntingAux r task s 0 s.territories

/-- The `for nomad in self.nomads` loop of `_nomad_phase`.  The Python
`n != nomad` dict comparison is index inequality (ids are unique). -/
def nomadLoop (task : Task) (s : AlgState) : List ℕ → Bool × AlgState
  | [] => (false, s)
  | nomad :: rest =>
    if (nd s nomad).capacity * s.migration_threshold < (nd s nomad).current_load then
      let act := (List.range s.nodes.length).filter fun i =>
        !(nd s i).failed && decide (0 < (nd s i).capacity) && decide (i ≠ nomad)
      match argminKey (fun i => calculate_fitness (nd s i)) act with
      | none => nomadLoop task s rest
      | some recipient =>
        let migratable := min ((nd s nomad).current_load * (3 / 10))
          (min task.mips_required
            ((nd s recipient).capacity - (nd s recipient).current_load))
        if 0 < migratable then
          (true, addLoad (addLoad s nomad (-migratable)) recipient migratable)
        else nomadLoop task s rest
    else nomadLoop task s rest

/-- `LionOptimizationLB._nomad_phase`: lazily builds the nomad cache
(sorted by fitness descending, capped at `max(2, num_nodes//10)`). -/
def nomadPhase (task : Task) (s : AlgState) : Bool × AlgState :=
  if s.nomads = [] then
    let act := activeIdxs s
    if act = [] then (false, s)
    else
      let noms := (sortDesc (fun i => calculate_fitness (nd s i)) act).take
        (max 2 (s.num_nodes / 10))
      nomadLoop task { s with nomads := noms } noms
  else nomadLoop task s s.nomads

/-- `LionOptimizationLB.allocate_task`: hunting, then nomads, then the
global fallback. -/
def lionAllocate (r : LionRand) (task : Task) (s : AlgState) : Bool × AlgState :=
  match huntingPhase r task s with
  | (true, s1) => (true, s1)
  | (false, s1) =>
    match nomadPhase task s1 with
    | (true, s2) => (true, s2)
    | (false, s2) =>
      let act := activeIdxs s2
      match argminKey (fun i => calculate_fitness (nd s2 i)) act with
      | none => (false, s2)
      | some best =>
        if (nd s2 best).current_load + task.mips_required ≤ (nd s2 best).capacity then
          (true, addLoad s2 best task.mips_required)
        else (false, s2)

/-- `BatAlgorithm.allocate_task`. -/
def batAllocate (r : BatRand) (task : Task) (s : AlgState) : Bool × AlgState :=
  let act := activeIdxs s
  match argminKey (fun i => (nd s i).current_load / (nd s i).capacity) act with
  | none => (false, s)
  | some best =>
    let commitBest : Bool × AlgState :=
      if (nd s best).current_load + task.mips_required ≤ (nd s best).capacity then
        (true, addLoad s best task.mips_required)
      else (false, s)
    if s.pulse_rate < Int.fract r.q then
      let cand := act.getD (r.pick % act.length) best
      if (nd s cand).current_load + task.mips_required ≤ (nd s cand).capacity then
        (true, addLoad s cand task.mips_required)
      else commitBest
    else commitBest

/-- The `for i, node in enumerate(self.nodes)` memory-refresh loop of
`CrowSearchAlgorithm.allocate_task`; `(false, _)` is the `IndexError`
raised when `self.memory` is shorter than the node pool. -/
def crowRefresh (act : List ℕ) : List ℕ → AlgState → Bool × AlgState
  | [], s => (true, s)
  | i :: rest, s =>
    if i ∈ act then
      match s.memory.get? i with
      | none => (false, s)
      | some none => crowRefresh act rest s
      | some (some m) =>
        crowRefresh act rest
          { s with memory := s.memory.set i (some (m.1, (nd s i).current_load)) }
    else crowRefresh act rest s

/-- `CrowSearchAlgorithm.allocate_task`; the first component is `none`
when the refresh loop raises. -/
def crowAllocate (task : Task) (s : AlgState) : Option Bool × AlgState :=
  let act := activeIdxs s
  if act = [] then (some false, s)
  else
    let s1 := if s.memory.all Option.isNone then
        { s with memory := act.map fun i => some (i, (nd s i).current_load) }
      else s
    match crowRefresh act (List.range s1.nodes.length) s1 with
    | (false, s2) => (none, s2)
    | (true, s2) =>
      let valid := (s2.memory.filterMap id).filter fun m =>
        !(nd s2 m.1).failed && decide (0 < (nd s2 m.1).capacity)
      match argminKey (fun m => m.2 / (nd s2 m.1).capacity) valid with
      | none => (some false, s2)
      | some best =>
        if (nd s2 best.1).current_load + task.mips_required ≤ (nd s2 best.1).capacity then
          (some true, addLoad s2 best.1 task.mips_required)
        else (some false, s2)

/-- `MonarchButterflyOptimization.allocate_task`. -/
def monarchAllocate (r : MonarchRand) (task : Task) (s : AlgState) : Bool × AlgState :=
  let act := activeIdxs s
  if act = [] then (false, s)
  else if r.migrate then
    let _src := argmaxKey (fun i => (nd s i).current_load / (nd s i).capacity) act
    match argminKey (fun i => (nd s i).current_load / (nd s i).capacity) act with
    | none => (false, s)
    | some dst =>
      if (nd s dst).current_load + task.mips_required ≤ (nd s dst).capacity then
        (true, addLoad s dst task.mips_required)
      else (false, s)
  else
    let node := act.getD (r.pick % act.length) 0
    if (nd s node).current_load + task.mips_required ≤ (nd s node).capacity then
      (true, addLoad s node task.mips_required)
    else (false, s)

/-- The one polymorphic operation `allocate_task(task) -> bool`, dispatched
over the closed strategy union; `none` is an uncaught exception. -/
def allocate_task (k : AlgKind) (r : AllocRand) (task : Task) (s : AlgState) :
    Option Bool × AlgState :=
  match k with
  | .lion => let p := lionAllocate r.lion task s; (some p.1, p.2)
  | .bat => let p := batAllocate r.bat task s; (some p.1, p.2)
  | .crow => crowAllocate task s
  | .monarch => let p := monarchAllocate r.monarch task s; (some p.1, p.2)

/-- `MetaheuristicAlgorithm.simulate_failure`.  `int(self.num_nodes * 0.1)`
is `num_nodes / 10` (exact for every realistic pool size), and the first
component is `false` when the inner allocation raises. -/
def simulate_failure (k : AlgKind) (fr : FailRand) (mig : AllocRand)
    (s : AlgState) : Bool × AlgState :=
  let act := aliveIdxs s
  if act.length ≤ s.min_nodes_for_operation then (true, s)
  else
    let maxFailures := max 1 (s.num_nodes / 10)
    if maxFailures ≤ countFailed s then (true, s)
    else
      let node := act.getD (fr.pick % act.length) 0
      if fr.roll then
        let s1 := setFailed s node
        if 0 < (nd s1 node).current_load then
          let tempTask : Task :=
            { id := -1
              mips_required := (nd s1 node).current_load
              length := (nd s1 node).current_load
              pe := 1
              priority := 1 }
          match allocate_task k mig tempTask s1 with
          | (some true, s2) => (true, setLoad s2 node 0)
          | (some false, s2) =>
            (true, { s2 with completed_tasks :=
              s2.completed_tasks - truncToInt ((nd s2 node).current_load / 1000) })
          | (none, s2) => (false, s2)
        else (true, s1)
      else (true, s)

/-- The fixed-shape metrics mapping produced by `calculate_metrics`. -/
structure Metrics where
  avg_response_time : ℚ
  throughput : ℚ
  fault_tolerance : ℚ
  energy_consumption : ℚ
  active_nodes : ℕ
  completed_tasks : ℤ
deriving DecidableEq

/-- `MetaheuristicAlgorithm.calculate_metrics` (pure reduction). -/
def calculate_metrics (s : AlgState) : Metrics :=
  let act := s.nodes.filter fun n => !n.failed
  let failedNodes := s.nodes.filter (·.failed)
  let response_times := (act.filter fun n => decide (0 < n.capacity)).map fun n =>
    1 / 10 + min 1 (n.current_load / n.capacity) * (9 / 10)
  let throughput : ℚ :=
    if 0 < s.num_tasks then ((s.completed_tasks : ℚ) / s.num_tasks) * 100 else 0
  let recovered := (failedNodes.filter fun n => decide (n.current_load = 0)).length
  let fault_tolerance : ℚ :=
    if failedNodes = [] then 100 else ((recovered : ℚ) / failedNodes.length) * 100
  { avg_response_time :=
      if response_times = [] then 1 / 2 else response_times.sum / response_times.length
    throughput := min 100 throughput
    fault_tolerance := min 100 fault_tolerance
    energy_consumption := (act.map fun n => n.current_load * n.energy_coefficient).sum
    active_nodes := act.length
    completed_tasks := s.completed_tasks }

/-- One iteration of the `run` loop: allocate, count, maybe inject a
failure; `false` signals an uncaught exception. -/
def runStep (k : AlgKind) (sr : StepRand) (task : Task) (s : AlgState) :
    Bool × AlgState :=
  match allocate_task k sr.alloc task s with
  | (none, s1) => (false, s1)
  | (some ok, s1) =>
    let s2 := if ok then { s1 with completed_tasks := s1.completed_tasks + 1 } else s1
    if sr.doFail then simulate_failure k sr.failr sr.mig s2 else (true, s2)

/-- The `for task in self.tasks` loop of `run`; `R i` is the randomness
consumed by iteration `i`. -/
def runLoop (k : AlgKind) (R : ℕ → StepRand) :
    List Task → ℕ → AlgState → Bool × AlgState
  | [], _, s => (true, s)
  | t :: ts, i, s =>
    match runStep k (R i) t s with
    | (true, s1) => runLoop k R ts (i + 1) s1
    | (false, s1) => (false, s1)

/-- `MetaheuristicAlgorithm.run`: reset the completed counter, drive the
task stream, then reduce the metrics (`none` if the run raised). -/
def run (k : AlgKind) (R : ℕ → StepRand) (s : AlgState) :
    Option Metrics × AlgState :=
  let s0 := { s with completed_tasks := 0 }
  match runLoop k R s0.tasks 0 s0 with
  | (true, s1) => (some (calculate_metrics s1), s1)
  | (false, s1) => (none, s1)

/-- States reachable through the public lifecycle: the constructor state,
closed under successful run-loop iterations and the counter reset at the
top of `run`. -/
inductive Reach (k : AlgKind) : AlgState → AlgState → Prop
  | init (s : AlgState) : Reach k s s
  | step {s s1 : AlgState} (sr : StepRand) (t : Task) :
      Reach k s s1 → (runStep k sr t s1).1 = true →
      Reach k s (runStep k sr t s1).2
  | reset {s s1 : AlgState} :
      Reach k s s1 → Reach k s { s1 with completed_tasks := 0 }

/-! ### Basic reading lemmas for the pool primitives -/

theorem nd_nodes_eq {s s2 : AlgState} (h : s2.nodes = s.nodes) (i : ℕ) :
    nd s2 i = nd s i := by
  simp [nd, h]

theorem nd_set_self {s : AlgState} {j : ℕ} (h : j < s.nodes.length) (v : Node) :
    nd { s with nodes := s.nodes.set j v } j = v := by
  simp [nd, List.getD_eq_getElem?_getD, List.getElem?_set_self (by simpa using h)]

theorem nd_set_ne {s : AlgState} {j i : ℕ} (h : j ≠ i) (v : Node) :
    nd { s with nodes := s.nodes.set j v } i = nd s i := by
  simp [nd, List.getD_eq_getElem?_getD, List.getElem?_set_ne h]

theorem nd_set_oob {s : AlgState} {j : ℕ} (h : s.nodes.length ≤ j) (v : Node) (i : ℕ) :
    nd { s with nodes := s.nodes.set j v } i = nd s i := by
  simp [nd, List.set_eq_of_length_le h]

theorem nd_oob {s : AlgState} {i : ℕ} (h : s.nodes.length ≤ i) : nd s i = default := by
  simp [nd, List.getElem?_eq_none h]

theorem cap_pos_lt_length {s : AlgState} {i : ℕ} (h : 0 < (nd s i).capacity) :
    i < s.nodes.length := by
  by_contra hc
  push_neg at hc
  rw [nd_oob hc] at h
  exact absurd h (by norm_num [default])

theorem nd_addLoad_self {s : AlgState} {j : ℕ} (h : j < s.nodes.length) (d : ℚ) :
    nd (addLoad s j d) j = { nd s j with current_load := (nd s j).current_load + d } :=
  nd_set_self h _

theorem nd_addLoad_ne {s : AlgState} {j i : ℕ} (h : j ≠ i) (d : ℚ) :
    nd (addLoad s j d) i = nd s i :=
  nd_set_ne h _

theorem nd_addLoad_load {s : AlgState} (j : ℕ) (d : ℚ) (i : ℕ) :
    (nd (addLoad s j d) i).current_load =
      if i = j ∧ j < s.nodes.length then (nd s i).current_load + d
      else (nd s i).current_load := by
  rcases Nat.lt_or_ge j s.nodes.length with hj | hj
  · rcases eq_or_ne i j with rfl | hij
    · simp [nd_addLoad_self hj, hj]
    · simp [nd_addLoad_ne (Ne.symm hij), hij]
  · have hcond : ¬(i = j ∧ j < s.nodes.length) := fun hh => absurd hh.2 (not_lt.mpr hj)
    simp [addLoad, nd_set_oob hj, hcond]

theorem nd_addLoad_failed (s : AlgState) (j : ℕ) (d : ℚ) (i : ℕ) :
    (nd (addLoad s j d) i).failed = (nd s i).failed := by
  rcases Nat.lt_or_ge j s.nodes.length with hj | hj
  · rcases eq_or_ne i j with rfl | hij
    · simp [nd_addLoad_self hj]
    · simp [nd_addLoad_ne (Ne.symm hij)]
  · simp [addLoad, nd_set_oob hj]

theorem nd_addLoad_capacity (s : AlgState) (j : ℕ) (d : ℚ) (i : ℕ) :
    (nd (addLoad s j d) i).capacity = (nd s i).capacity := by
  rcases Nat.lt_or_ge j s.nodes.length with hj | hj
  · rcases eq_or_ne i j with rfl | hij
    · simp [nd_addLoad_self hj]
    · simp [nd_addLoad_ne (Ne.symm hij)]
  · simp [addLoad, nd_set_oob hj]

theorem addLoad_length (s : AlgState) (j : ℕ) (d : ℚ) :
    (addLoad s j d).nodes.length = s.nodes.length := by
  simp [addLoad]

theorem setLoad_length (s : AlgState) (j : ℕ) (v : ℚ) :
    (setLoad s j v).nodes.length = s.nodes.length := by
  simp [setLoad]

theorem setFailed_length (s : AlgState) (j : ℕ) :
    (setFailed s j).nodes.length = s.nodes.length := by
  simp [setFailed]

theorem nd_setFailed_self {s : AlgState} {j : ℕ} (h : j < s.nodes.length) :
    nd (setFailed s j) j = { nd s j with failed := true } :=
  nd_set_self h _

theorem nd_setFailed_ne {s : AlgState} {j i : ℕ} (h : j ≠ i) :
    nd (setFailed s j) i = nd s i :=
  nd_set_ne h _

theorem nd_setFailed_load (s : AlgState) (j i : ℕ) :
    (nd (setFailed s j) i).current_load = (nd s i).current_load := by
  rcases Nat.lt_or_ge j s.nodes.length with hj | hj
  · rcases eq_or_ne i j with rfl | hij
    · simp [nd_setFailed_self hj]
    · simp [nd_setFailed_ne (Ne.symm hij)]
  · simp [setFailed, nd_set_oob hj]

theorem nd_setFailed_capacity (s : AlgState) (j i : ℕ) :
    (nd (setFailed s j) i).capacity = (nd s i).capacity := by
  rcases Nat.lt_or_ge j s.nodes.length with hj | hj
  · rcases eq_or_ne i j with rfl | hij
    · simp [nd_setFailed_self hj]
    · simp [nd_setFailed_ne (Ne.symm hij)]
  · simp [setFailed, nd_set_oob hj]

theorem nd_setFailed_failed (s : AlgState) (j i : ℕ) :
    (nd (setFailed s j) i).failed = ((nd s i).failed || decide (i = j ∧ j < s.nodes.length)) := by
  rcases Nat.lt_or_ge j s.nodes.length with hj | hj
  · rcases eq_or_ne i j with rfl | hij
    · simp [nd_setFailed_self hj, hj]
    · simp [nd_setFailed_ne (Ne.symm hij), hij]
  · simp [setFailed, nd_set_oob hj, not_lt.mpr hj]

theorem nd_setLoad_self {s : AlgState} {j : ℕ} (h : j < s.nodes.length) (v : ℚ) :
    nd (setLoad s j v) j = { nd s j with current_load := v } :=
  nd_set_self h _

theorem nd_setLoad_ne {s : AlgState} {j i : ℕ} (h : j ≠ i) (v : ℚ) :
    nd (setLoad s j v) i = nd s i :=
  nd_set_ne h _

theorem nd_setLoad_failed (s : AlgState) (j : ℕ) (v : ℚ) (i : ℕ) :
    (nd (setLoad s j v) i).failed = (nd s i).failed := by
  rcases Nat.lt_or_ge j s.nodes.length with hj | hj
  · rcases eq_or_ne i j with rfl | hij
    · simp [nd_setLoad_self hj]
    · simp [nd_setLoad_ne (Ne.symm hij)]
  · simp [setLoad, nd_set_oob hj]

theorem nd_setLoad_capacity (s : AlgState) (j : ℕ) (v : ℚ) (i : ℕ) :
    (nd (setLoad s j v) i).capacity = (nd s i).capacity := by
  rcases Nat.lt_or_ge j s.nodes.length with hj | hj
  · rcases eq_or_ne i j with rfl | hij
    · simp [nd_setLoad_self hj]
    · simp [nd_setLoad_ne (Ne.symm hij)]
  · simp [setLoad, nd_set_oob hj]

/-! ### `argminKey`, `sampleIdx`, `sortDesc` -/

theorem foldl_min_mem {α β : Type} [LinearOrder β] (f : α → β) :
    ∀ (l : List α) (b : α), l.foldl (fun b x => if f x < f b then x else b) b ∈ b :: l := by
  intro l
  induction l with
  | nil => intro b; simp
  | cons x t ih =>
    intro b
    simp only [List.foldl_cons]
    have h := ih (if f x < f b then x else b)
    rcases List.mem_cons.mp h with h1 | h1
    · rw [h1]
      by_cases hx : f x < f b
      · simp [hx]
      · simp [hx]
    · exact List.mem_cons_of_mem _ (List.mem_cons_of_mem _ h1)

theorem foldl_min_le {α β : Type} [LinearOrder β] (f : α → β) :
    ∀ (l : List α) (b : α), ∀ x ∈ b :: l,
      f (l.foldl (fun b x => if f x < f b then x else b) b) ≤ f x := by
  intro l
  induction l with
  | nil => intro b x hx; simp at hx; simp [hx]
  | cons y t ih =>
    intro b x hx
    simp only [List.foldl_cons]
    have hb : f (t.foldl (fun b x => if f x < f b then x else b) (if f y < f b then y else b)) ≤
        f (if f y < f b then y else b) :=
      ih (if f y < f b then y else b) _ (List.mem_cons_self _ _)
    have hBb : f (if f y < f b then y else b) ≤ f b := by
      by_cases hy : f y < f b
      · rw [if_pos hy]; exact hy.le
      · rw [if_neg hy]
    have hBy : f (if f y < f b then y else b) ≤ f y := by
      by_cases hy : f y < f b
      · rw [if_pos hy]
      · rw [if_neg hy]; exact not_lt.mp hy
    rcases List.mem_cons.mp hx with rfl | hx1
    · exact hb.trans hBb
    · rcases List.mem_cons.mp hx1 with rfl | hx2
      · exact hb.trans hBy
      · exact ih _ x (List.mem_cons_of_mem _ hx2)

theorem argminKey_mem {α β : Type} [LinearOrder β] {f : α → β} {l : List α} {a : α}
    (h : argminKey f l = some a) : a ∈ l := by
  match l with
  | [] => simp [argminKey] at h
  | b :: t =>
    simp only [argminKey, Option.some.injEq] at h
    rw [← h]
    exact foldl_min_mem f t b

theorem argminKey_le {α β : Type} [LinearOrder β] {f : α → β} {l : List α} {a : α}
    (h : argminKey f l = some a) : ∀ x ∈ l, f a ≤ f x := by
  match l with
  | [] => simp [argminKey] at h
  | b :: t =>
    simp only [argminKey, Option.some.injEq] at h
    rw [← h]
    exact foldl_min_le f t b

theorem argminKey_eq_none {α β : Type} [LinearOrder β] {f : α → β} {l : List α} :
    argminKey f l = none ↔ l = [] := by
  cases l <;> simp [argminKey]

theorem getD_mem {α : Type} {l : List α} {d : α} (hd : d ∈ l) (i : ℕ) : l.getD i d ∈ l := by
  rcases Nat.lt_or_ge i l.length with h | h
  · rw [List.getD_eq_getElem l d h]
    exact List.getElem_mem h
  · rw [List.getD_eq_default _ _ h]
    exact hd

theorem sampleIdx_subset {α : Type} (g : ℕ → ℕ) :
    ∀ (k : ℕ) (l : List α), sampleIdx g k l ⊆ l := by
  intro k
  induction k with
  | zero => intro l; simp [sampleIdx]
  | succ k ih =>
    intro l
    match l with
    | [] => simp [sampleIdx]
    | a :: t =>
      intro x hx
      simp only [sampleIdx] at hx
      rcases List.mem_cons.mp hx with rfl | hx1
      · exact getD_mem (List.mem_cons_self a t) _
      · exact List.eraseIdx_subset _ _ (ih _ hx1)

theorem mem_insertDesc {α β : Type} [LinearOrder β] (f : α → β) (a x : α) :
    ∀ l : List α, x ∈ insertDesc f a l ↔ x = a ∨ x ∈ l := by
  intro l
  induction l with
  | nil => simp [insertDesc]
  | cons b t ih =>
    simp only [insertDesc]
    by_cases h : f b ≤ f a
    · simp [h, List.mem_cons]
    · simp only [h, if_neg, if_false, List.mem_cons, ih]
      tauto

theorem mem_sortDesc {α β : Type} [LinearOrder β] (f : α → β) (x : α) :
    ∀ l : List α, x ∈ sortDesc f l ↔ x ∈ l := by
  intro l
  induction l with
  | nil => simp [sortDesc]
  | cons a t ih => simp [sortDesc, mem_insertDesc, ih]

/-! ### Membership in the live filters -/

theorem mem_activeIdxs {s : AlgState} {i : ℕ} :
    i ∈ activeIdxs s ↔
      (nd s i).failed = false ∧ 0 < (nd s i).capacity ∧ i < s.nodes.length := by
  simp only [activeIdxs, List.mem_filter, List.mem_range, Bool.and_eq_true,
    Bool.not_eq_true', decide_eq_true_eq]
  tauto

theorem mem_aliveIdxs {s : AlgState} {i : ℕ} :
    i ∈ aliveIdxs s ↔ (nd s i).failed = false ∧ i < s.nodes.length := by
  simp only [aliveIdxs, List.mem_filter, List.mem_range, Bool.not_eq_true']
  tauto

theorem mem_terrActive {s : AlgState} {terr : Territory} {i : ℕ}
    (h : i ∈ terrActive s terr) :
    (nd s i).failed = false ∧ 0 < (nd s i).capacity ∧ i < s.nodes.length := by
  simp only [terrActive, List.mem_filter, Bool.and_eq_true, Bool.not_eq_true',
    decide_eq_true_eq] at h
  exact ⟨h.2.1, h.2.2, cap_pos_lt_length h.2.2⟩

/-! ### What an allocation call may change -/

/-- State fields that no `allocate_task` variant ever writes. -/
def EqFrame (s s' : AlgState) : Prop :=
  s'.num_nodes = s.num_nodes ∧ s'.num_tasks = s.num_tasks ∧ s'.tasks = s.tasks ∧
  s'.fault_probability = s.fault_probability ∧
  s'.min_nodes_for_operation = s.min_nodes_for_operation ∧
  s'.completed_tasks = s.completed_tasks ∧
  s'.pride_size = s.pride_size ∧ s'.migration_threshold = s.migration_threshold ∧
  s'.loudness = s.loudness ∧ s'.pulse_rate = s.pulse_rate ∧
  s'.flight_length = s.flight_length ∧ s'.bar = s.bar

theorem eqFrame_refl (s : AlgState) : EqFrame s s := by simp [EqFrame]

theorem eqFrame_trans {s s1 s2 : AlgState} (h1 : EqFrame s s1) (h2 : EqFrame s1 s2) :
    EqFrame s s2 := by
  obtain ⟨a1, b1, c1, d1, e1, f1, g1, h1a, i1, j1, k1, l1⟩ := h1
  obtain ⟨a2, b2, c2, d2, e2, f2, g2, h2a, i2, j2, k2, l2⟩ := h2
  exact ⟨a2.trans a1, b2.trans b1, c2.trans c1, d2.trans d1, e2.trans e1, f2.trans f1,
    g2.trans g1, h2a.trans h1a, i2.trans i1, j2.trans j1, k2.trans k1, l2.trans l1⟩

/-- On success, some active positive-capacity node received `d ≤ mips_required`
additional load within its capacity, and no other node's load grew. -/
def PlacedOne (task : Task) (s s' : AlgState) : Prop :=
  ∃ j d,
    (nd s j).failed = false ∧ 0 < (nd s j).capacity ∧ j < s.nodes.length ∧
    d ≤ task.mips_required ∧ (0 < task.mips_required → 0 < d) ∧
    (nd s' j).current_load = (nd s j).current_load + d ∧
    (nd s' j).current_load ≤ (nd s j).capacity ∧
    (∀ i, i ≠ j → (nd s' i).current_load ≤ (nd s i).current_load)

/-- Full mutation contract of one `allocate_task` call. -/
def AllocSpec (task : Task) (s : AlgState) (res : Option Bool) (s' : AlgState) : Prop :=
  EqFrame s s' ∧
  s'.nodes.length = s.nodes.length ∧
  (∀ i, (nd s' i).failed = (nd s i).failed) ∧
  (∀ i, (nd s' i).capacity = (nd s i).capacity) ∧
  (res ≠ some true → s'.nodes = s.nodes) ∧
  (res = some true → PlacedOne task s s')

theorem addLoad_nodes_congr {s2 s : AlgState} (h : s2.nodes = s.nodes) (j : ℕ) (d : ℚ) :
    (addLoad s2 j d).nodes = (addLoad s j d).nodes := by
  simp [addLoad, h, nd, h]

theorem allocSpec_false_of_nodes {task : Task} {s s' : AlgState} {res : Option Bool}
    (hres : res ≠ some true) (hfr : EqFrame s s') (hn : s'.nodes = s.nodes) :
    AllocSpec task s res s' := by
  refine ⟨hfr, by rw [hn], fun i => by rw [nd_nodes_eq hn], fun i => by rw [nd_nodes_eq hn],
    fun _ => hn, fun h => absurd h hres⟩

theorem allocSpec_true_of_nodes {task : Task} {s s' : AlgState} {j : ℕ}
    (hfr : EqFrame s s') (hf : (nd s j).failed = false) (hc : 0 < (nd s j).capacity)
    (hfit : (nd s j).current_load + task.mips_required ≤ (nd s j).capacity)
    (hn : s'.nodes = (addLoad s j task.mips_required).nodes) :
    AllocSpec task s (some true) s' := by
  have hj : j < s.nodes.length := cap_pos_lt_length hc
  have hlen : s'.nodes.length = s.nodes.length := by rw [hn, addLoad_length]
  refine ⟨hfr, hlen, ?_, ?_, by simp, fun _ => ?_⟩
  · intro i
    rw [nd_nodes_eq hn, nd_addLoad_failed]
  · intro i
    rw [nd_nodes_eq hn, nd_addLoad_capacity]
  refine ⟨j, task.mips_required, hf, hc, hj, le_rfl, fun h => h, ?_, ?_, ?_⟩
  · rw [nd_nodes_eq hn, nd_addLoad_load]
    simp [hj]
  · rw [nd_nodes_eq hn, nd_addLoad_load]
    simpa [hj] using hfit
  · intro i hij
    rw [nd_nodes_eq hn, nd_addLoad_load]
    simp [hij]

theorem allocSpec_true_of_transfer {task : Task} {s s' : AlgState}
    {nomad recipient : ℕ} {m : ℚ}
    (hfr : EqFrame s s') (hne : recipient ≠ nomad)
    (hf : (nd s recipient).failed = false) (hc : 0 < (nd s recipient).capacity)
    (hm : 0 < m) (hmle : m ≤ task.mips_required)
    (hspare : m ≤ (nd s recipient).capacity - (nd s recipient).current_load)
    (hn : s'.nodes = (addLoad (addLoad s nomad (-m)) recipient m).nodes) :
    AllocSpec task s (some true) s' := by
  have hr : recipient < s.nodes.length := cap_pos_lt_length hc
  have hmid : ∀ i, i ≠ nomad → nd (addLoad s nomad (-m)) i = nd s i :=
    fun i hi => nd_addLoad_ne (Ne.symm hi) _
  have hrlen : (addLoad s nomad (-m)).nodes.length = s.nodes.length := addLoad_length ..
  have hlen : s'.nodes.length = s.nodes.length := by
    rw [hn, addLoad_length, addLoad_length]
  refine ⟨hfr, hlen, ?_, ?_, by simp, fun _ => ?_⟩
  · intro i
    rw [nd_nodes_eq hn, nd_addLoad_failed, nd_addLoad_failed]
  · intro i
    rw [nd_nodes_eq hn, nd_addLoad_capacity, nd_addLoad_capacity]
  refine ⟨recipient, m, hf, hc, hr, hmle, fun _ => hm, ?_, ?_, ?_⟩
  · rw [nd_nodes_eq hn, nd_addLoad_load]
    rw [if_pos ⟨rfl, by rw [hrlen]; exact hr⟩, hmid recipient hne]
  · rw [nd_nodes_eq hn, nd_addLoad_load]
    rw [if_pos ⟨rfl, by rw [hrlen]; exact hr⟩, hmid recipient hne]
    linarith
  · intro i hir
    rw [nd_nodes_eq hn, nd_addLoad_load]
    simp only [hir, false_and, if_neg, if_false]
    rw [nd_addLoad_load]
    by_cases hin : i = nomad ∧ nomad < s.nodes.length
    · rw [if_pos hin]
      linarith
    · rw [if_neg hin]

/-! ### Phase lemmas for the Lion strategy -/

theorem huntingAux_spec (r : LionRand) (task : Task) (s : AlgState) :
    ∀ (t : ℕ) (terrs : List Territory),
      huntingAux r task s t terrs = (false, s) ∨
      ((huntingAux r task s t terrs).1 = true ∧
        EqFrame s (huntingAux r task s t terrs).2 ∧
        (huntingAux r task s t terrs).2.nomads = s.nomads ∧
        (huntingAux r task s t terrs).2.memory = s.memory ∧
        ∃ j, (nd s j).failed = false ∧ 0 < (nd s j).capacity ∧
          (nd s j).current_load + task.mips_required ≤ (nd s j).capacity ∧
          (huntingAux r task s t terrs).2.nodes = (addLoad s j task.mips_required).nodes) := by
  intro t terrs
  induction terrs generalizing t with
  | nil => left; simp [huntingAux]
  | cons terr rest ih =>
    simp only [huntingAux]
    split
    · exact ih (t + 1)
    · split
      · rename_i hexp
        split
        · exact ih (t + 1)
        · rename_i best hbest
          have hmem : best ∈ terrActive s terr := by
            refine sampleIdx_subset _ _ _ (argminKey_mem hbest)
          obtain ⟨hf, hc, hlt⟩ := mem_terrActive hmem
          split
          · rename_i hfit
            right
            split
            · refine ⟨rfl, by simp [EqFrame, addLoad], by simp [addLoad], by simp [addLoad],
                best, hf, hc, hfit, by simp [addLoad]⟩
            · refine ⟨rfl, by simp [EqFrame, addLoad], by simp [addLoad], by simp [addLoad],
                best, hf, hc, hfit, rfl⟩
          · exact ih (t + 1)
      · exact ih (t + 1)

theorem pair_of_fst {α β : Type} {p : α × β} {b : α} (h : p.1 = b) : p = (b, p.2) := by
  rw [← h]

theorem activeIdxs_nodes_eq {s2 s : AlgState} (h : s2.nodes = s.nodes) :
    activeIdxs s2 = activeIdxs s := by
  simp [activeIdxs, nd, h]

theorem nomadLoop_spec (task : Task) (s : AlgState) :
    ∀ noms : List ℕ,
      nomadLoop task s noms = (false, s) ∨
      ((nomadLoop task s noms).1 = true ∧
        EqFrame s (nomadLoop task s noms).2 ∧
        (nomadLoop task s noms).2.nomads = s.nomads ∧
        (nomadLoop task s noms).2.memory = s.memory ∧
        (nomadLoop task s noms).2.territories = s.territories ∧
        ∃ nomad recipient m,
          recipient ≠ nomad ∧
          (nd s recipient).failed = false ∧ 0 < (nd s recipient).capacity ∧
          0 < m ∧ m ≤ task.mips_required ∧
          m ≤ (nd s recipient).capacity - (nd s recipient).current_load ∧
          (nomadLoop task s noms).2.nodes =
            (addLoad (addLoad s nomad (-m)) recipient m).nodes) := by
  intro noms
  induction noms with
  | nil => left; simp [nomadLoop]
  | cons nomad rest ih =>
    simp only [nomadLoop]
    split
    · split
      · exact ih
      · rename_i recipient hrec
        have hmem := argminKey_mem hrec
        simp only [List.mem_filter, List.mem_range, Bool.and_eq_true, Bool.not_eq_true',
          decide_eq_true_eq] at hmem
        split
        · rename_i hmig
          right
          refine ⟨rfl, by simp [EqFrame, addLoad], by simp [addLoad], by simp [addLoad],
            by simp [addLoad], nomad, recipient,
            min ((nd s nomad).current_load * (3 / 10))
              (min task.mips_required
                ((nd s recipient).capacity - (nd s recipient).current_load)),
            hmem.2.2, hmem.2.1.1, hmem.2.1.2, hmig,
            (min_le_right _ _).trans (min_le_left _ _),
            (min_le_right _ _).trans (min_le_right _ _), rfl⟩
        · exact ih
    · exact ih

theorem nomadPhase_spec (task : Task) (s : AlgState) :
    ((nomadPhase task s).1 = false ∧ (nomadPhase task s).2.nodes = s.nodes ∧
      EqFrame s (nomadPhase task s).2 ∧
      (nomadPhase task s).2.memory = s.memory ∧
      (nomadPhase task s).2.territories = s.territories) ∨
    ((nomadPhase task s).1 = true ∧ AllocSpec task s (some true) (nomadPhase task s).2) := by
  simp only [nomadPhase]
  split
  · split
    · left
      exact ⟨rfl, rfl, eqFrame_refl s, rfl, rfl⟩
    · -- lazily built nomads, loop over them from the state carrying the cache
      rename_i hne
      set noms := (sortDesc (fun i => calculate_fitness (nd s i)) (activeIdxs s)).take
        (max 2 (s.num_nodes / 10)) with hnoms
      set s2 : AlgState := { s with nomads := noms } with hs2
      have hn2 : s2.nodes = s.nodes := rfl
      have hfr2 : EqFrame s s2 := by simp [EqFrame, hs2]
      rcases nomadLoop_spec task s2 noms with hL | hL
      · left
        rw [hL]
        exact ⟨rfl, rfl, hfr2, rfl, rfl⟩
      · right
        obtain ⟨h1, hfr, hnom, hmem, hterr, nomad, recipient, m, hner, hf, hc, hm, hmle,
          hspare, hnodes⟩ := hL
        refine ⟨h1, ?_⟩
        refine allocSpec_true_of_transfer (eqFrame_trans hfr2 hfr) hner ?_ ?_ hm hmle ?_ ?_
        · rw [← nd_nodes_eq hn2]; exact hf
        · rw [← nd_nodes_eq hn2]; exact hc
        · rw [← nd_nodes_eq hn2]; exact hspare
        · rw [hnodes, addLoad_nodes_congr (addLoad_nodes_congr hn2 nomad (-m)) recipient m]
  · rcases nomadLoop_spec task s s.nomads with hL | hL
    · left
      rw [hL]
      exact ⟨rfl, rfl, eqFrame_refl s, rfl, rfl⟩
    · right
      obtain ⟨h1, hfr, hnom, hmem, hterr, nomad, recipient, m, hner, hf, hc, hm, hmle,
        hspare, hnodes⟩ := hL
      refine ⟨h1, allocSpec_true_of_transfer hfr hner hf hc hm hmle hspare hnodes⟩

theorem lionAllocate_spec (r : LionRand) (task : Task) (s : AlgState) :
    AllocSpec task s (some (lionAllocate r task s).1) (lionAllocate r task s).2 := by
  rcases huntingAux_spec r task s 0 s.territories with hsp | hsp
  · have hH : huntingAux r task s 0 s.territories = (false, s) := hsp
    rcases nomadPhase_spec task s with hN | hN
    · -- neither pride nor nomads succeeded: the global fallback runs
      rcases hq : nomadPhase task s with ⟨bn, sn⟩
      rw [hq] at hN
      obtain ⟨hb1, hn2, hfr2, -, -⟩ := hN
      simp only at hb1 hn2
      subst hb1
      simp only [lionAllocate, huntingPhase, hH, hq]
      rcases hA : argminKey (fun i => calculate_fitness (nd sn i)) (activeIdxs sn)
        with - | best
      · simp only [hA]
        exact allocSpec_false_of_nodes (by simp) hfr2 hn2
      · simp only [hA]
        have hmem := argminKey_mem hA
        rw [activeIdxs_nodes_eq hn2] at hmem
        obtain ⟨hf, hc, hlt⟩ := mem_activeIdxs.mp hmem
        split
        · rename_i hfit
          rw [nd_nodes_eq hn2] at hfit
          exact allocSpec_true_of_nodes hfr2 hf hc hfit (addLoad_nodes_congr hn2 best _)
        · exact allocSpec_false_of_nodes (by simp) hfr2 hn2
    · rcases hq : nomadPhase task s with ⟨bn, sn⟩
      rw [hq] at hN
      obtain ⟨hb1, hAS⟩ := hN
      simp only at hb1 hAS
      subst hb1
      simp only [lionAllocate, huntingPhase, hH, hq]
      exact hAS
  · rcases hq : huntingAux r task s 0 s.territories with ⟨bh, sh⟩
    rw [hq] at hsp
    obtain ⟨hb1, hfr, -, -, j, hf, hc, hfit, hnodes⟩ := hsp
    simp only at hb1 hfr hnodes
    subst hb1
    simp only [lionAllocate, huntingPhase, hq]
    exact allocSpec_true_of_nodes hfr hf hc hfit hnodes

theorem batAllocate_spec (r : BatRand) (task : Task) (s : AlgState) :
    AllocSpec task s (some (batAllocate r task s).1) (batAllocate r task s).2 := by
  simp only [batAllocate]
  rcases hA : argminKey (fun i => (nd s i).current_load / (nd s i).capacity) (activeIdxs s)
    with - | best
  · simp only [hA]
    exact allocSpec_false_of_nodes (by simp) (eqFrame_refl s) rfl
  · simp only [hA]
    have hbm := argminKey_mem hA
    obtain ⟨hbf, hbc, hblt⟩ := mem_activeIdxs.mp hbm
    split
    · have hcm : (activeIdxs s).getD (r.pick % (activeIdxs s).length) best ∈ activeIdxs s :=
        getD_mem hbm _
      obtain ⟨hcf, hcc, hclt⟩ := mem_activeIdxs.mp hcm
      split
      · rename_i hfit
        exact allocSpec_true_of_nodes (eqFrame_refl s) hcf hcc hfit rfl
      · split
        · rename_i hfit2
          exact allocSpec_true_of_nodes (eqFrame_refl s) hbf hbc hfit2 rfl
        · exact allocSpec_false_of_nodes (by simp) (eqFrame_refl s) rfl
    · split
      · rename_i hfit2
        exact allocSpec_true_of_nodes (eqFrame_refl s) hbf hbc hfit2 rfl
      · exact allocSpec_false_of_nodes (by simp) (eqFrame_refl s) rfl

theorem monarchAllocate_spec (r : MonarchRand) (task : Task) (s : AlgState) :
    AllocSpec task s (some (monarchAllocate r task s).1) (monarchAllocate r task s).2 := by
  simp only [monarchAllocate]
  split
  · exact allocSpec_false_of_nodes (by simp) (eqFrame_refl s) rfl
  · rename_i hne
    split
    · rcases hA : argminKey (fun i => (nd s i).current_load / (nd s i).capacity) (activeIdxs s)
        with - | dst
      · simp only [hA]
        exact allocSpec_false_of_nodes (by simp) (eqFrame_refl s) rfl
      · simp only [hA]
        obtain ⟨hf, hc, hlt⟩ := mem_activeIdxs.mp (argminKey_mem hA)
        split
        · rename_i hfit
          exact allocSpec_true_of_nodes (eqFrame_refl s) hf hc hfit rfl
        · exact allocSpec_false_of_nodes (by simp) (eqFrame_refl s) rfl
    · have hlen : r.pick % (activeIdxs s).length < (activeIdxs s).length :=
        Nat.mod_lt _ (List.length_pos.mpr hne)
      have hnm : (activeIdxs s).getD (r.pick % (activeIdxs s).length) 0 ∈ activeIdxs s := by
        rw [List.getD_eq_getElem _ _ hlen]
        exact List.getElem_mem hlen
      obtain ⟨hf, hc, hlt⟩ := mem_activeIdxs.mp hnm
      split
      · rename_i hfit
        exact allocSpec_true_of_nodes (eqFrame_refl s) hf hc hfit rfl
      · exact allocSpec_false_of_nodes (by simp) (eqFrame_refl s) rfl

theorem crowRefresh_frame (act : List ℕ) :
    ∀ (L : List ℕ) (s : AlgState),
      (crowRefresh act L s).2.nodes = s.nodes ∧
      EqFrame s (crowRefresh act L s).2 ∧
      (crowRefresh act L s).2.nomads = s.nomads ∧
      (crowRefresh act L s).2.territories = s.territories ∧
      (crowRefresh act L s).2.memory.length = s.memory.length := by
  intro L
  induction L with
  | nil => intro s; exact ⟨rfl, eqFrame_refl s, rfl, rfl, rfl⟩
  | cons i rest ih =>
    intro s
    simp only [crowRefresh]
    split
    · split
      · exact ⟨rfl, eqFrame_refl s, rfl, rfl, rfl⟩
      · exact ih s
      · rename_i m hm
        obtain ⟨h1, h2, h3, h4, h5⟩ :=
          ih { s with memory := s.memory.set i (some (m.1, (nd s i).current_load)) }
        exact ⟨h1, eqFrame_trans (by simp [EqFrame]) h2, h3, h4, by rw [h5]; simp⟩
    · exact ih s

theorem crowAllocate_spec (task : Task) (s : AlgState) :
    AllocSpec task s (crowAllocate task s).1 (crowAllocate task s).2 := by
  simp only [crowAllocate]
  split
  · exact allocSpec_false_of_nodes (by simp) (eqFrame_refl s) rfl
  · rename_i hne
    set s1 : AlgState := if s.memory.all Option.isNone then
        { s with memory := (activeIdxs s).map fun i => some (i, (nd s i).current_load) }
      else s with hs1
    have hn1 : s1.nodes = s.nodes := by
      rw [hs1]; split <;> rfl
    have hfr1 : EqFrame s s1 := by
      rw [hs1]; split
      · simp [EqFrame]
      · exact eqFrame_refl s
    rcases hR : crowRefresh (activeIdxs s) (List.range s1.nodes.length) s1 with ⟨ok, s2⟩
    obtain ⟨hRn, hRf, -, -, -⟩ := crowRefresh_frame (activeIdxs s) (List.range s1.nodes.length) s1
    rw [hR] at hRn hRf
    simp only at hRn hRf
    have hn2 : s2.nodes = s.nodes := hRn.trans hn1
    have hfr2 : EqFrame s s2 := eqFrame_trans hfr1 hRf
    cases ok
    · simp only [hR]
      exact allocSpec_false_of_nodes (by simp) hfr2 hn2
    · simp only [hR]
      rcases hA : argminKey (fun m => m.2 / (nd s2 m.1).capacity)
          ((s2.memory.filterMap id).filter fun m =>
            !(nd s2 m.1).failed && decide (0 < (nd s2 m.1).capacity)) with - | best
      · simp only [hA]
        exact allocSpec_false_of_nodes (by simp) hfr2 hn2
      · simp only [hA]
        have hbm := argminKey_mem hA
        simp only [List.mem_filter, Bool.and_eq_true, Bool.not_eq_true',
          decide_eq_true_eq] at hbm
        have hf : (nd s best.1).failed = false := by
          rw [← nd_nodes_eq hn2]; exact hbm.2.1
        have hc : 0 < (nd s best.1).capacity := by
          rw [← nd_nodes_eq hn2]; exact hbm.2.2
        split
        · rename_i hfit
          rw [nd_nodes_eq hn2] at hfit
          exact allocSpec_true_of_nodes hfr2 hf hc hfit (addLoad_nodes_congr hn2 best.1 _)
        · exact allocSpec_false_of_nodes (by simp) hfr2 hn2

theorem allocate_task_spec (k : AlgKind) (r : AllocRand) (task : Task) (s : AlgState) :
    AllocSpec task s (allocate_task k r task s).1 (allocate_task k r task s).2 := by
  cases k
  · exact lionAllocate_spec r.lion task s
  · exact batAllocate_spec r.bat task s
  · exact crowAllocate_spec task s
  · exact monarchAllocate_spec r.monarch task s

/-! ### Counting failed nodes -/

theorem countFailed_eq_countP (s : AlgState) :
    countFailed s = s.nodes.countP (·.failed) := by
  simp [countFailed, List.countP_eq_length_filter]

theorem countP_set_le {α : Type} (p : α → Bool) :
    ∀ (l : List α) (i : ℕ) (v : α), (l.set i v).countP p ≤ l.countP p + 1 := by
  intro l
  induction l with
  | nil => intro i v; simp
  | cons a t ih =>
    intro i v
    cases i with
    | zero =>
      simp only [List.set_cons_zero, List.countP_cons]
      have h1 : (if p v = true then 1 else 0) ≤ 1 := by split <;> omega
      omega
    | succ i =>
      simp only [List.set_cons_succ, List.countP_cons]
      have := ih i v
      omega

theorem countP_failed_eq {l l2 : List Node} (hlen : l2.length = l.length)
    (h : ∀ i, (l2.getD i default).failed = (l.getD i default).failed) :
    l2.countP (·.failed) = l.countP (·.failed) := by
  induction l generalizing l2 with
  | nil =>
    rw [List.length_nil, List.length_eq_zero] at hlen
    rw [hlen]
  | cons a t ih =>
    cases l2 with
    | nil => simp at hlen
    | cons b t2 =>
      simp only [List.countP_cons]
      have h0 := h 0
      simp only [List.getD_cons_zero] at h0
      have ht : ∀ i, (t2.getD i default).failed = (t.getD i default).failed := by
        intro i
        have := h (i + 1)
        simpa [List.getD_cons_succ] using this
      rw [ih (by simpa using hlen) ht, h0]

theorem countFailed_eq_of_pointwise {s s2 : AlgState}
    (hlen : s2.nodes.length = s.nodes.length)
    (h : ∀ i, (nd s2 i).failed = (nd s i).failed) :
    countFailed s2 = countFailed s := by
  rw [countFailed_eq_countP, countFailed_eq_countP]
  exact countP_failed_eq hlen h

theorem countFailed_allocate (k : AlgKind) (r : AllocRand) (task : Task) (s : AlgState) :
    countFailed (allocate_task k r task s).2 = countFailed s := by
  obtain ⟨-, hlen, hfail, -, -, -⟩ := allocate_task_spec k r task s
  exact countFailed_eq_of_pointwise hlen hfail

theorem countFailed_setFailed_le (s : AlgState) (j : ℕ) :
    countFailed (setFailed s j) ≤ countFailed s + 1 := by
  rw [countFailed_eq_countP, countFailed_eq_countP]
  exact countP_set_le _ s.nodes j _

theorem countP_range_node_le_one (n node : ℕ) :
    (List.range n).countP (fun i => decide (i = node)) ≤ 1 := by
  induction n with
  | zero => simp
  | succ n ih =>
    rw [List.range_succ, List.countP_append]
    by_cases h : n = node
    · subst h
      have h0 : (List.range n).countP (fun i => decide (i = n)) = 0 :=
        List.countP_eq_zero.mpr fun a ha => by
          simp only [decide_eq_true_eq]
          exact Nat.ne_of_lt (List.mem_range.mp ha)
      simp [h0, List.countP_cons]
    · have h1 : ([n].countP fun i => decide (i = node)) = 0 := by
        simp [List.countP_cons, h]
      omega

theorem flips_le_one {s s2 : AlgState} (node : ℕ)
    (h : ∀ i, i ≠ node → (nd s2 i).failed = (nd s i).failed) :
    (List.range s.nodes.length).countP
      (fun i => decide ((nd s2 i).failed ≠ (nd s i).failed)) ≤ 1 := by
  have hmono : ∀ x ∈ List.range s.nodes.length,
      (fun i => decide ((nd s2 i).failed ≠ (nd s i).failed)) x = true →
      (fun i => decide (i = node)) x = true := by
    intro x hx hd
    simp only [decide_eq_true_eq] at hd ⊢
    by_contra hxn
    exact hd (h x hxn)
  exact (List.countP_mono_left hmono).trans (countP_range_node_le_one _ node)

theorem countFailed_setLoad (s : AlgState) (j : ℕ) (v : ℚ) :
    countFailed (setLoad s j v) = countFailed s :=
  countFailed_eq_of_pointwise (setLoad_length s j v) (nd_setLoad_failed s j v)

/-! ### Behaviour of `simulate_failure` -/

theorem simulate_failure_noop (k : AlgKind) (fr : FailRand) (mig : AllocRand) (s : AlgState)
    (h : (aliveIdxs s).length ≤ s.min_nodes_for_operation ∨
      max 1 (s.num_nodes / 10) ≤ countFailed s) :
    simulate_failure k fr mig s = (true, s) := by
  simp only [simulate_failure]
  rcases h with h | h
  · rw [if_pos h]
  · by_cases h2 : (aliveIdxs s).length ≤ s.min_nodes_for_operation
    · rw [if_pos h2]
    · rw [if_neg h2, if_pos h]

theorem simulate_failure_pool (k : AlgKind) (fr : FailRand) (mig : AllocRand) (s : AlgState) :
    ((simulate_failure k fr mig s).2.num_nodes = s.num_nodes ∧
      (simulate_failure k fr mig s).2.min_nodes_for_operation = s.min_nodes_for_operation ∧
      (simulate_failure k fr mig s).2.nodes.length = s.nodes.length) ∧
    (((∀ i, (nd (simulate_failure k fr mig s).2 i).failed = (nd s i).failed) ∧
        countFailed (simulate_failure k fr mig s).2 = countFailed s) ∨
      (countFailed s < max 1 (s.num_nodes / 10) ∧
        ∃ node,
          (∀ i, (nd (simulate_failure k fr mig s).2 i).failed =
            (nd (setFailed s node) i).failed) ∧
          countFailed (simulate_failure k fr mig s).2 = countFailed (setFailed s node))) := by
  simp only [simulate_failure]
  split
  · exact ⟨⟨rfl, rfl, rfl⟩, Or.inl ⟨fun i => rfl, rfl⟩⟩
  · split
    · exact ⟨⟨rfl, rfl, rfl⟩, Or.inl ⟨fun i => rfl, rfl⟩⟩
    · rename_i hact hcap
      rw [not_le] at hcap
      split
      · -- the node is marked failed
        set node : ℕ := (aliveIdxs s).getD (fr.pick % (aliveIdxs s).length) 0 with hnode
        split
        · -- it carried load: the migration allocation runs
          split
          · rename_i s2 heq
            obtain ⟨hfr, hlen2, hfail2, -, -, -⟩ := by
              have h := allocate_task_spec k mig
                { id := -1
                  mips_required := (nd (setFailed s node) node).current_load
                  length := (nd (setFailed s node) node).current_load
                  pe := 1
                  priority := 1 } (setFailed s node)
              rw [heq] at h
              exact h
            refine ⟨⟨?_, ?_, ?_⟩, Or.inr ⟨hcap, node, ?_, ?_⟩⟩
            · exact hfr.1
            · exact hfr.2.2.2.2.1
            · exact (setLoad_length s2 node 0).trans (hlen2.trans (setFailed_length s node))
            · intro i
              rw [nd_setLoad_failed]
              exact hfail2 i
            · rw [countFailed_setLoad]
              exact countFailed_eq_of_pointwise hlen2 hfail2
          · rename_i s2 heq
            obtain ⟨hfr, hlen2, hfail2, -, -, -⟩ := by
              have h := allocate_task_spec k mig
                { id := -1
                  mips_required := (nd (setFailed s node) node).current_load
                  length := (nd (setFailed s node) node).current_load
                  pe := 1
                  priority := 1 } (setFailed s node)
              rw [heq] at h
              exact h
            refine ⟨⟨?_, ?_, ?_⟩, Or.inr ⟨hcap, node, ?_, ?_⟩⟩
            · exact hfr.1
            · exact hfr.2.2.2.2.1
            · exact hlen2.trans (setFailed_length s node)
            · exact hfail2
            · exact countFailed_eq_of_pointwise hlen2 hfail2
          · rename_i s2 heq
            obtain ⟨hfr, hlen2, hfail2, -, -, -⟩ := by
              have h := allocate_task_spec k mig
                { id := -1
                  mips_required := (nd (setFailed s node) node).current_load
                  length := (nd (setFailed s node) node).current_load
                  pe := 1
                  priority := 1 } (setFailed s node)
              rw [heq] at h
              exact h
            refine ⟨⟨?_, ?_, ?_⟩, Or.inr ⟨hcap, node, ?_, ?_⟩⟩
            · exact hfr.1
            · exact hfr.2.2.2.2.1
            · exact hlen2.trans (setFailed_length s node)
            · exact hfail2
            · exact countFailed_eq_of_pointwise hlen2 hfail2
        · -- no load: state is just setFailed
          refine ⟨⟨rfl, rfl, setFailed_length s _⟩, Or.inr ⟨hcap, node, fun i => rfl, rfl⟩⟩
      · exact ⟨⟨rfl, rfl, rfl⟩, Or.inl ⟨fun i => rfl, rfl⟩⟩

theorem simulate_failure_mono (k : AlgKind) (fr : FailRand) (mig : AllocRand) (s : AlgState) :
    ∀ i, (nd s i).failed = true → (nd (simulate_failure k fr mig s).2 i).failed = true := by
  obtain ⟨-, h⟩ := simulate_failure_pool k fr mig s
  rcases h with ⟨hf, -⟩ | ⟨-, node, hf, -⟩
  · intro i hi
    rw [hf i]
    exact hi
  · intro i hi
    rw [hf i, nd_setFailed_failed]
    simp [hi]

theorem simulate_failure_flips (k : AlgKind) (fr : FailRand) (mig : AllocRand) (s : AlgState) :
    (List.range s.nodes.length).countP
      (fun i => decide ((nd (simulate_failure k fr mig s).2 i).failed ≠ (nd s i).failed)) ≤ 1 := by
  obtain ⟨-, h⟩ := simulate_failure_pool k fr mig s
  rcases h with ⟨hf, -⟩ | ⟨-, node, hf, -⟩
  · have h0 : (List.range s.nodes.length).countP
        (fun i => decide ((nd (simulate_failure k fr mig s).2 i).failed ≠ (nd s i).failed)) = 0 :=
      List.countP_eq_zero.mpr fun a ha => by simp [hf a]
    omega
  · apply flips_le_one node
    intro i hi
    rw [hf i, nd_setFailed_ne (Ne.symm hi)]

theorem countFailed_simulate_succ (k : AlgKind) (fr : FailRand) (mig : AllocRand)
    (s : AlgState) :
    countFailed (simulate_failure k fr mig s).2 ≤ countFailed s + 1 := by
  obtain ⟨-, h⟩ := simulate_failure_pool k fr mig s
  rcases h with ⟨-, hc⟩ | ⟨-, node, -, hc⟩
  · omega
  · rw [hc]
    exact countFailed_setFailed_le s node

theorem countFailed_simulate_bound (k : AlgKind) (fr : FailRand) (mig : AllocRand)
    (s : AlgState) (h : countFailed s ≤ max 1 (s.num_nodes / 10)) :
    countFailed (simulate_failure k fr mig s).2 ≤ max 1 (s.num_nodes / 10) := by
  obtain ⟨-, hch⟩ := simulate_failure_pool k fr mig s
  rcases hch with ⟨-, hc⟩ | ⟨hlt, node, -, hc⟩
  · rw [hc]
    exact h
  · rw [hc]
    have := countFailed_setFailed_le s node
    omega

/-- Repeated fault-injection calls (used to state the cap invariant). -/
def simFold (k : AlgKind) : List (FailRand × AllocRand) → AlgState → AlgState
  | [], s => s
  | c :: cs, s => simFold k cs (simulate_failure k c.1 c.2 s).2

theorem simFold_num_nodes (k : AlgKind) :
    ∀ (cs : List (FailRand × AllocRand)) (s : AlgState),
      (simFold k cs s).num_nodes = s.num_nodes := by
  intro cs
  induction cs with
  | nil => intro s; rfl
  | cons c cs ih =>
    intro s
    rw [simFold, ih]
    exact (simulate_failure_pool k c.1 c.2 s).1.1

theorem simFold_bound (k : AlgKind) :
    ∀ (cs : List (FailRand × AllocRand)) (s : AlgState),
      countFailed s ≤ max 1 (s.num_nodes / 10) →
      countFailed (simFold k cs s) ≤ max 1 (s.num_nodes / 10) := by
  intro cs
  induction cs with
  | nil => intro s h; exact h
  | cons c cs ih =>
    intro s h
    rw [simFold]
    have hnum : (simulate_failure k c.1 c.2 s).2.num_nodes = s.num_nodes :=
      (simulate_failure_pool k c.1 c.2 s).1.1
    have := ih (simulate_failure k c.1 c.2 s).2
      (by rw [hnum]; exact countFailed_simulate_bound k c.1 c.2 s h)
    rwa [hnum] at this

theorem countFailed_mk (g : InitRand) (n m : ℕ) : countFailed (mkAlgState g n m) = 0 := by
  simp only [countFailed, mkAlgState, initialize_nodes]
  rw [List.filter_eq_nil_iff.mpr]
  · rfl
  · intro a ha
    obtain ⟨i, -, rfl⟩ := List.mem_map.mp ha
    simp

/-! ### The run loop only adds failures -/

theorem runStep_failed_mono (k : AlgKind) (sr : StepRand) (t : Task) (s : AlgState) :
    ∀ i, (nd s i).failed = true → (nd (runStep k sr t s).2 i).failed = true := by
  simp only [runStep]
  split
  · rename_i s1 heq
    intro i hi
    obtain ⟨-, -, hfail, -, -, -⟩ := by
      have h := allocate_task_spec k sr.alloc t s
      rw [heq] at h
      exact h
    rw [hfail i]
    exact hi
  · rename_i ok s1 heq
    obtain ⟨-, -, hfail, -, -, -⟩ := by
      have h := allocate_task_spec k sr.alloc t s
      rw [heq] at h
      exact h
    intro i hi
    split
    · refine simulate_failure_mono k sr.failr sr.mig _ i ?_
      have : (nd (if ok = true then { s1 with completed_tasks := s1.completed_tasks + 1 }
          else s1) i).failed = (nd s1 i).failed := by
        split <;> rfl
      rw [this, hfail i]
      exact hi
    · have : (nd (if ok = true then { s1 with completed_tasks := s1.completed_tasks + 1 }
          else s1) i).failed = (nd s1 i).failed := by
        split <;> rfl
      rw [this, hfail i]
      exact hi

theorem runLoop_failed_mono (k : AlgKind) (R : ℕ → StepRand) :
    ∀ (ts : List Task) (idx : ℕ) (s : AlgState) (i : ℕ),
      (nd s i).failed = true → (nd (runLoop k R ts idx s).2 i).failed = true := by
  intro ts
  induction ts with
  | nil => intro idx s i hi; exact hi
  | cons t rest ih =>
    intro idx s i hi
    simp only [runLoop]
    split
    · rename_i s1 heq
      refine ih (idx + 1) s1 i ?_
      have := runStep_failed_mono k (R idx) t s i hi
      rwa [heq] at this
    · rename_i s1 heq
      have := runStep_failed_mono k (R idx) t s i hi
      rwa [heq] at this

theorem run_failed_mono (k : AlgKind) (R : ℕ → StepRand) (s : AlgState) (i : ℕ)
    (hi : (nd s i).failed = true) : (nd (run k R s).2 i).failed = true := by
  simp only [run]
  split
  · rename_i s1 heq
    have := runLoop_failed_mono k R s.tasks 0 { s with completed_tasks := 0 } i hi
    rwa [heq] at this
  · rename_i s1 heq
    have := runLoop_failed_mono k R s.tasks 0 { s with completed_tasks := 0 } i hi
    rwa [heq] at this

/-! ### The Crow memory through the public lifecycle -/

/-- Every present memory slot remembers the node of its own pool index. -/
def SlotInv (s : AlgState) : Prop :=
  ∀ i, i < s.memory.length → ∃ l, s.memory.get? i = some (some (i, l))

/-- Invariant of every state reachable by the Crow strategy: one memory
slot per pool slot, strictly positive capacities, and the memory is either
fully seeded slot-by-slot or still untouched (with no failure yet). -/
def CrowInv (s : AlgState) : Prop :=
  s.memory.length = s.nodes.length ∧
  (∀ n ∈ s.nodes, 0 < n.capacity) ∧
  (SlotInv s ∨ ((∀ o ∈ s.memory, o = none) ∧ ∀ n ∈ s.nodes, n.failed = false))

theorem slotInv_of_nil {s : AlgState} (h : s.memory.length = 0) : SlotInv s := by
  intro i hi
  omega

theorem nd_mem {s : AlgState} {j : ℕ} (hj : j < s.nodes.length) : nd s j ∈ s.nodes := by
  rw [nd, List.getD_eq_getElem _ _ hj]
  exact List.getElem_mem hj

theorem cap_pos_set_value {s : AlgState} (h : ∀ n ∈ s.nodes, 0 < n.capacity)
    {j : ℕ} {v : Node} (hv : v.capacity = (nd s j).capacity) :
    ∀ n ∈ s.nodes.set j v, 0 < n.capacity := by
  rcases Nat.lt_or_ge j s.nodes.length with hj | hj
  · intro a ha
    rcases List.mem_or_eq_of_mem_set ha with ha2 | rfl
    · exact h a ha2
    · rw [hv]
      exact h _ (nd_mem hj)
  · rw [List.set_eq_of_length_le hj]
    exact h

theorem cap_pos_addLoad {s : AlgState} (h : ∀ n ∈ s.nodes, 0 < n.capacity) (j : ℕ) (d : ℚ) :
    ∀ n ∈ (addLoad s j d).nodes, 0 < n.capacity :=
  cap_pos_set_value h rfl

theorem cap_pos_setLoad {s : AlgState} (h : ∀ n ∈ s.nodes, 0 < n.capacity) (j : ℕ) (v : ℚ) :
    ∀ n ∈ (setLoad s j v).nodes, 0 < n.capacity :=
  cap_pos_set_value h rfl

theorem cap_pos_setFailed {s : AlgState} (h : ∀ n ∈ s.nodes, 0 < n.capacity) (j : ℕ) :
    ∀ n ∈ (setFailed s j).nodes, 0 < n.capacity :=
  cap_pos_set_value h rfl

theorem activeIdxs_all (s : AlgState) (hcap : ∀ n ∈ s.nodes, 0 < n.capacity)
    (hfail : ∀ n ∈ s.nodes, n.failed = false) :
    activeIdxs s = List.range s.nodes.length := by
  rw [activeIdxs, List.filter_eq_self.mpr]
  intro i hi
  have hlt := List.mem_range.mp hi
  have hm := nd_mem hlt
  simp [hfail _ hm, hcap _ hm]

theorem crowInv_mk (g : InitRand) (n m : ℕ) : CrowInv (mkAlgState g n m) := by
  refine ⟨?_, ?_, Or.inr ⟨?_, ?_⟩⟩
  · simp [mkAlgState, initialize_nodes]
  · intro a ha
    simp only [mkAlgState, initialize_nodes, List.mem_map] at ha
    obtain ⟨i, -, rfl⟩ := ha
    have : 0 < randint 2000 4000 (g.node_cap i) := by simp [randint]
    simpa using this
  · intro o ho
    simp only [mkAlgState] at ho
    exact List.eq_of_mem_replicate ho
  · intro a ha
    simp only [mkAlgState, initialize_nodes, List.mem_map] at ha
    obtain ⟨i, -, rfl⟩ := ha
    rfl

theorem crowRefresh_slots (act : List ℕ) :
    ∀ (L : List ℕ) (s : AlgState),
      (∀ i ∈ L, i ∈ act → i < s.memory.length) → SlotInv s →
      (crowRefresh act L s).1 = true ∧
      SlotInv (crowRefresh act L s).2 ∧
      (crowRefresh act L s).2.memory.length = s.memory.length ∧
      (∀ i, i ∈ L → i ∈ act →
        (crowRefresh act L s).2.memory.get? i = some (some (i, (nd s i).current_load))) ∧
      (∀ i, i ∉ L → (crowRefresh act L s).2.memory.get? i = s.memory.get? i) := by
  intro L
  induction L with
  | nil =>
    intro s hL hS
    exact ⟨rfl, hS, rfl, fun i hi => absurd hi (List.not_mem_nil i), fun i _ => rfl⟩
  | cons j rest ih =>
    intro s hL hS
    simp only [crowRefresh]
    by_cases hja : j ∈ act
    · rw [if_pos hja]
      have hjlen : j < s.memory.length := hL j (List.mem_cons_self j rest) hja
      obtain ⟨l, hslot⟩ := hS j hjlen
      rw [hslot]
      -- the slot is present: it is refreshed with the live load
      set s2 : AlgState :=
        { s with memory := s.memory.set j (some (j, (nd s j).current_load)) } with hs2
      have hlen2 : s2.memory.length = s.memory.length := by simp [hs2]
      have hnd2 : ∀ i, nd s2 i = nd s i := fun i => rfl
      have hS2 : SlotInv s2 := by
        intro i hi
        rcases eq_or_ne i j with rfl | hij
        · refine ⟨(nd s i).current_load, ?_⟩
          simp only [hs2]
          exact List.get?_set_eq_of_lt _ (by omega)
        · obtain ⟨l2, hl2⟩ := hS i (by omega)
          refine ⟨l2, ?_⟩
          simp only [hs2]
          rw [List.get?_set_ne _ _ (Ne.symm hij)]
          exact hl2
      obtain ⟨h1, h2, h3, h4, h5⟩ := ih s2 (fun i hi hia => by
        rw [hlen2]; exact hL i (List.mem_cons_of_mem _ hi) hia) hS2
      refine ⟨h1, h2, h3.trans hlen2, ?_, ?_⟩
      · intro i hi hia
        by_cases hir : i ∈ rest
        · rw [h4 i hir hia, hnd2 i]
        · have hij : i = j := by
            rcases List.mem_cons.mp hi with h | h
            · exact h
            · exact absurd h hir
          subst hij
          rw [h5 i hir]
          simp only [hs2]
          exact List.get?_set_eq_of_lt _ (by omega)
      · intro i hi
        have hij : i ≠ j := fun h => hi (h ▸ List.mem_cons_self j rest)
        have hir : i ∉ rest := fun h => hi (List.mem_cons_of_mem _ h)
        rw [h5 i hir]
        simp only [hs2]
        rw [List.get?_set_ne _ _ (Ne.symm hij)]
    · rw [if_neg hja]
      obtain ⟨h1, h2, h3, h4, h5⟩ := ih s (fun i hi hia =>
        hL i (List.mem_cons_of_mem _ hi) hia) hS
      refine ⟨h1, h2, h3, ?_, ?_⟩
      · intro i hi hia
        rcases List.mem_cons.mp hi with rfl | hir
        · exact absurd hia hja
        · exact h4 i hir hia
      · intro i hi
        exact h5 i fun h => hi (List.mem_cons_of_mem _ h)

theorem crowInv_state_addLoad {s2 : AlgState} (h1 : s2.memory.length = s2.nodes.length)
    (h2 : ∀ n ∈ s2.nodes, 0 < n.capacity) (hS : SlotInv s2) (j : ℕ) (d : ℚ) :
    CrowInv (addLoad s2 j d) ∧ SlotInv (addLoad s2 j d) := by
  refine ⟨⟨?_, cap_pos_addLoad h2 j d, Or.inl hS⟩, hS⟩
  rw [addLoad_length]
  exact h1

theorem crowAllocate_inv (task : Task) (s : AlgState) (hInv : CrowInv s) :
    (crowAllocate task s).1 ≠ none ∧
    CrowInv (crowAllocate task s).2 ∧
    SlotInv (crowAllocate task s).2 ∧
    (∀ i l, s.memory.get? i = some (some (i, l)) →
      (nd s i).failed = false → 0 < (nd s i).capacity →
      (crowAllocate task s).2.memory.get? i = some (some (i, (nd s i).current_load))) := by
  obtain ⟨hlen, hcap, hdisj⟩ := hInv
  simp only [crowAllocate]
  split
  · rename_i hact
    rcases hdisj with hS | ⟨hnone, hfail⟩
    · refine ⟨by simp, ⟨hlen, hcap, Or.inl hS⟩, hS, ?_⟩
      intro i l hslot hf hc
      have hi : i ∈ activeIdxs s := mem_activeIdxs.mpr ⟨hf, hc, cap_pos_lt_length hc⟩
      rw [hact] at hi
      exact absurd hi (List.not_mem_nil i)
    · have hnil : s.nodes.length = 0 := by
        have h := activeIdxs_all s hcap hfail
        rw [hact] at h
        simpa using h.symm
      refine ⟨by simp, ⟨hlen, hcap, Or.inr ⟨hnone, hfail⟩⟩,
        slotInv_of_nil (s := s) (by omega), ?_⟩
      intro i l hslot hf hc
      have := cap_pos_lt_length hc
      omega
  · rename_i hact
    by_cases hAllNone : s.memory.all Option.isNone
    · rcases hdisj with hS | ⟨hnone, hfail⟩
      · -- a seeded memory is never all-none while an active node exists
        exfalso
        obtain ⟨i0, hi0⟩ := List.exists_mem_of_ne_nil _ hact
        have hi0lt : i0 < s.nodes.length := (mem_activeIdxs.mp hi0).2.2
        obtain ⟨l0, hl0⟩ := hS 0 (by omega)
        have hm := List.get?_mem hl0
        have := List.all_eq_true.mp hAllNone _ hm
        simp at this
      · -- first allocation: seed one slot per (fully active) pool index
        rw [if_pos hAllNone, activeIdxs_all s hcap hfail]
        set s1 : AlgState :=
          { s with memory := List.map (fun i => some (i, (nd s i).current_load)) (List.range s.nodes.length) } with hs1
        have hn1 : s1.nodes = s.nodes := rfl
        have hlen1 : s1.memory.length = s.nodes.length := by simp [hs1]
        have hS1 : SlotInv s1 := by
          intro i hi
          rw [hlen1] at hi
          refine ⟨(nd s i).current_load, ?_⟩
          simp [hs1, List.get?_eq_getElem?, List.getElem?_range hi]
        rcases hR : crowRefresh (List.range s.nodes.length)
            (List.range s1.nodes.length) s1 with ⟨ok, s2⟩
        obtain ⟨hok, hS2, hlen2, hval2, -⟩ := crowRefresh_slots
          (List.range s.nodes.length) (List.range s1.nodes.length) s1
          (fun i hi hia => by rw [hlen1]; exact List.mem_range.mp hia) hS1
        obtain ⟨hfn2, -, -, -, -⟩ := crowRefresh_frame
          (List.range s.nodes.length) (List.range s1.nodes.length) s1
        rw [hR] at hok hS2 hlen2 hval2 hfn2
        simp only at hok hS2 hlen2 hval2 hfn2
        subst hok
        simp only [hR]
        have hn2 : s2.nodes = s.nodes := hfn2
        have hcap2 : ∀ n ∈ s2.nodes, 0 < n.capacity := by rw [hn2]; exact hcap
        have hlen2s : s2.memory.length = s2.nodes.length := by
          rw [hlen2, hlen1, hn2]
        have hvac : ∀ (i : ℕ) (l : ℚ), s.memory.get? i = some (some (i, l)) → False := by
          intro i l hslot
          have hm := List.get?_mem hslot
          have h2 := List.all_eq_true.mp hAllNone _ hm
          simp at h2
        split
        · exact ⟨by simp, ⟨hlen2s, hcap2, Or.inl hS2⟩, hS2,
            fun i l hslot hf hc => (hvac i l hslot).elim⟩
        · split
          · exact ⟨by simp, (crowInv_state_addLoad hlen2s hcap2 hS2 _ _).1,
              (crowInv_state_addLoad hlen2s hcap2 hS2 _ _).2,
              fun i l hslot hf hc => (hvac i l hslot).elim⟩
          · exact ⟨by simp, ⟨hlen2s, hcap2, Or.inl hS2⟩, hS2,
              fun i l hslot hf hc => (hvac i l hslot).elim⟩
    · -- memory already seeded: only the refresh loop runs
      rcases hdisj with hS | ⟨hnone, hfail⟩
      swap
      · exfalso
        exact hAllNone (List.all_eq_true.mpr fun o ho => by rw [hnone o ho]; rfl)
      rw [if_neg hAllNone]
      rcases hR : crowRefresh (activeIdxs s) (List.range s.nodes.length) s with ⟨ok, s2⟩
      obtain ⟨hok, hS2, hlen2, hval2, -⟩ := crowRefresh_slots
        (activeIdxs s) (List.range s.nodes.length) s
        (fun i hi hia => by rw [hlen]; exact (mem_activeIdxs.mp hia).2.2) hS
      obtain ⟨hfn2, -, -, -, -⟩ := crowRefresh_frame
        (activeIdxs s) (List.range s.nodes.length) s
      rw [hR] at hok hS2 hlen2 hval2 hfn2
      simp only at hok hS2 hlen2 hval2 hfn2
      subst hok
      simp only [hR]
      have hn2 : s2.nodes = s.nodes := hfn2
      have hcap2 : ∀ n ∈ s2.nodes, 0 < n.capacity := by rw [hn2]; exact hcap
      have hlen2s : s2.memory.length = s2.nodes.length := by
        rw [hlen2, hlen, hn2]
      have hupd : ∀ i l, s.memory.get? i = some (some (i, l)) →
          (nd s i).failed = false → 0 < (nd s i).capacity →
          s2.memory.get? i = some (some (i, (nd s i).current_load)) := by
        intro i l hslot hf hc
        have hlt : i < s.nodes.length := cap_pos_lt_length hc
        exact hval2 i (List.mem_range.mpr hlt)
          (mem_activeIdxs.mpr ⟨hf, hc, hlt⟩)
      split
      · exact ⟨by simp, ⟨hlen2s, hcap2, Or.inl hS2⟩, hS2, hupd⟩
      · split
        · exact ⟨by simp, (crowInv_state_addLoad hlen2s hcap2 hS2 _ _).1,
            (crowInv_state_addLoad hlen2s hcap2 hS2 _ _).2, hupd⟩
        · exact ⟨by simp, ⟨hlen2s, hcap2, Or.inl hS2⟩, hS2, hupd⟩

theorem crowInv_setFailed {s : AlgState} (h : CrowInv s) (hS : SlotInv s) (j : ℕ) :
    CrowInv (setFailed s j) := by
  obtain ⟨h1, h2, -⟩ := h
  refine ⟨?_, cap_pos_setFailed h2 j, Or.inl hS⟩
  rw [setFailed_length]
  exact h1

theorem crowInv_setLoad {s : AlgState} (h : CrowInv s) (hS : SlotInv s) (j : ℕ) (v : ℚ) :
    CrowInv (setLoad s j v) ∧ SlotInv (setLoad s j v) := by
  obtain ⟨h1, h2, -⟩ := h
  refine ⟨⟨?_, cap_pos_setLoad h2 j v, Or.inl hS⟩, hS⟩
  rw [setLoad_length]
  exact h1

theorem simulate_failure_crowInv (fr : FailRand) (mig : AllocRand) (s : AlgState)
    (hInv : CrowInv s) (hSd : SlotInv s ∨ s.nodes = []) :
    CrowInv (simulate_failure .crow fr mig s).2 ∧
    (SlotInv (simulate_failure .crow fr mig s).2 ∨
      (simulate_failure .crow fr mig s).2.nodes = []) := by
  rcases hSd with hS | hnil
  · simp only [simulate_failure]
    split
    · exact ⟨hInv, Or.inl hS⟩
    · split
      · exact ⟨hInv, Or.inl hS⟩
      · split
        · set node : ℕ := (aliveIdxs s).getD (fr.pick % (aliveIdxs s).length) 0 with hnode
          have hInv1 : CrowInv (setFailed s node) := crowInv_setFailed hInv hS node
          have hS1 : SlotInv (setFailed s node) := hS
          split
          · split
            · rename_i s2 heq
              have heq2 : crowAllocate
                  { id := -1
                    mips_required := (nd (setFailed s node) node).current_load
                    length := (nd (setFailed s node) node).current_load
                    pe := 1
                    priority := 1 } (setFailed s node) = (some true, s2) := heq
              obtain ⟨-, hCI2, hSI2, -⟩ := by
                have h := crowAllocate_inv
                  { id := -1
                    mips_required := (nd (setFailed s node) node).current_load
                    length := (nd (setFailed s node) node).current_load
                    pe := 1
                    priority := 1 } (setFailed s node) hInv1
                rw [heq2] at h
                exact h
              have := crowInv_setLoad hCI2 hSI2 node 0
              exact ⟨this.1, Or.inl this.2⟩
            · rename_i s2 heq
              have heq2 : crowAllocate
                  { id := -1
                    mips_required := (nd (setFailed s node) node).current_load
                    length := (nd (setFailed s node) node).current_load
                    pe := 1
                    priority := 1 } (setFailed s node) = (some false, s2) := heq
              obtain ⟨-, hCI2, hSI2, -⟩ := by
                have h := crowAllocate_inv
                  { id := -1
                    mips_required := (nd (setFailed s node) node).current_load
                    length := (nd (setFailed s node) node).current_load
                    pe := 1
                    priority := 1 } (setFailed s node) hInv1
                rw [heq2] at h
                exact h
              exact ⟨hCI2, Or.inl hSI2⟩
            · rename_i s2 heq
              have heq2 : crowAllocate
                  { id := -1
                    mips_required := (nd (setFailed s node) node).current_load
                    length := (nd (setFailed s node) node).current_load
                    pe := 1
                    priority := 1 } (setFailed s node) = (none, s2) := heq
              obtain ⟨-, hCI2, hSI2, -⟩ := by
                have h := crowAllocate_inv
                  { id := -1
                    mips_required := (nd (setFailed s node) node).current_load
                    length := (nd (setFailed s node) node).current_load
                    pe := 1
                    priority := 1 } (setFailed s node) hInv1
                rw [heq2] at h
                exact h
              exact ⟨hCI2, Or.inl hSI2⟩
          · exact ⟨hInv1, Or.inl hS1⟩
        · exact ⟨hInv, Or.inl hS⟩
  · have halive : (aliveIdxs s).length ≤ s.min_nodes_for_operation := by
      simp [aliveIdxs, hnil]
    rw [simulate_failure_noop .crow fr mig s (Or.inl halive)]
    exact ⟨hInv, Or.inr hnil⟩

theorem runStep_crowInv (sr : StepRand) (t : Task) (s : AlgState) (hInv : CrowInv s) :
    CrowInv (runStep .crow sr t s).2 := by
  simp only [runStep]
  split
  · rename_i s1 heq
    have heq2 : crowAllocate t s = (none, s1) := heq
    obtain ⟨-, hCI1, -, -⟩ := by
      have h := crowAllocate_inv t s hInv
      rw [heq2] at h
      exact h
    exact hCI1
  · rename_i ok s1 heq
    have heq2 : crowAllocate t s = (some ok, s1) := heq
    obtain ⟨-, hCI1, hSI1, -⟩ := by
      have h := crowAllocate_inv t s hInv
      rw [heq2] at h
      exact h
    have hCI2 : CrowInv (if ok = true
        then { s1 with completed_tasks := s1.completed_tasks + 1 } else s1) := by
      split <;> exact hCI1
    have hSI2 : SlotInv (if ok = true
        then { s1 with completed_tasks := s1.completed_tasks + 1 } else s1) := by
      split <;> exact hSI1
    split
    · exact (simulate_failure_crowInv sr.failr sr.mig _ hCI2 (Or.inl hSI2)).1
    · exact hCI2

theorem reach_crowInv {g : InitRand} {n m : ℕ} {s : AlgState}
    (h : Reach .crow (mkAlgState g n m) s) : CrowInv s := by
  induction h with
  | init => exact crowInv_mk g n m
  | step sr t hr hok ih => exact runStep_crowInv sr t _ ih
  | reset hr ih => exact ih

theorem crowInv_slot_id {s : AlgState} (h : CrowInv s) :
    ∀ i p, s.memory.get? i = some (some p) → p.1 = i := by
  intro i p hp
  have hlt : i < s.memory.length := by
    by_contra hc
    rw [List.get?_eq_none.mpr (not_lt.mp hc)] at hp
    cases hp
  rcases h.2.2 with hS | ⟨hnone, -⟩
  · obtain ⟨l, hl⟩ := hS i hlt
    rw [hl] at hp
    simp only [Option.some.injEq] at hp
    rw [← hp]
  · have h2 := hnone _ (List.get?_mem hp)
    simp at h2

/-! ### Territory structure (Lion) -/

theorem territory_cover (n k : ℕ) (hk : 2 ≤ k) {j : ℕ} (hj : j < n) :
    j / k < (n + k - 1) / k ∧
    j ∈ List.range' (j / k * k) (min k (n - j / k * k)) := by
  have hk0 : 0 < k := by omega
  have h1 : j / k * k ≤ j := Nat.div_mul_le_self j k
  have h2 : j % k < k := Nat.mod_lt j hk0
  have h3 : j / k * k + j % k = j := by
    rw [Nat.mul_comm]
    exact Nat.div_add_mod j k
  constructor
  · have h4 : j / k ≤ (n - 1) / k := Nat.div_le_div_right (by omega)
    have h5 : (n - 1 + k) / k = (n - 1) / k + 1 := Nat.add_div_right _ hk0
    have h6 : n + k - 1 = n - 1 + k := by omega
    rw [h6, h5]
    omega
  · rw [List.mem_range'_1]
    omega

theorem territory_unique (n k : ℕ) (hk0 : 0 < k) {c j : ℕ}
    (hmem : j ∈ List.range' (c * k) (min k (n - c * k))) : c = j / k := by
  rw [List.mem_range'_1] at hmem
  have h1 : c * k ≤ j := hmem.1
  have h2 : j < c * k + k := by
    have h3 := hmem.2
    have hmin : min k (n - c * k) ≤ k := min_le_left _ _
    omega
  symm
  exact Nat.div_eq_of_lt_le h1 (by rw [Nat.succ_mul]; omega)

theorem territory_chunk_lt (n k : ℕ) {c : ℕ} (hc : c < (n + k - 1) / k) :
    c * k + 1 ≤ n := by
  have h1 : (c + 1) * k ≤ (n + k - 1) / k * k := Nat.mul_le_mul_right k hc
  have h2 : (n + k - 1) / k * k ≤ n + k - 1 := Nat.div_mul_le_self _ _
  have h3 : (c + 1) * k = c * k + k := by ring
  rcases Nat.eq_zero_or_pos k with rfl | hk0
  · simp at h1 h3
    omega
  · omega

theorem territories_structure (n : ℕ) (hn : 2 ≤ n) :
    (∀ t ∈ initialize_territories n (max 5 (n / 4)), 2 ≤ t.idxs.length ∧
      t.idxs.length ≤ max 5 (n / 4) ∧ ∃ a, t.idxs = List.range' a t.idxs.length) ∧
    List.Pairwise (fun t1 t2 : Territory => ∀ j, j ∈ t1.idxs → j ∉ t2.idxs)
      (initialize_territories n (max 5 (n / 4))) ∧
    (∀ j, j < n → ((∃ t ∈ initialize_territories n (max 5 (n / 4)), j ∈ t.idxs) ↔
      ¬(n % max 5 (n / 4) = 1 ∧ j = n - 1))) ∧
    (∀ t ∈ initialize_territories n (max 5 (n / 4)), ∀ j ∈ t.idxs, j < n) := by
  set k := max 5 (n / 4) with hkdef
  have hk5 : 5 ≤ k := le_max_left _ _
  have hk2 : 2 ≤ k := by omega
  have hk0 : 0 < k := by omega
  have hQ : 0 < (n + k - 1) / k := by
    have h1 : 1 ≤ (n + k - 1) / k := (Nat.le_div_iff_mul_le hk0).mpr (by omega)
    omega
  have hchunk0 : List.range' 0 (min k n) ∈ chunkIdxs n k := by
    simp only [chunkIdxs, List.mem_map, List.mem_range]
    exact ⟨0, hQ, by simp⟩
  have hts : ((chunkIdxs n k).filter fun c => decide (2 ≤ c.length)) ≠ [] := by
    apply List.ne_nil_of_mem (a := List.range' 0 (min k n))
    rw [List.mem_filter]
    refine ⟨hchunk0, ?_⟩
    simp only [decide_eq_true_eq, List.length_range']
    omega
  have htsmap : (((chunkIdxs n k).filter fun c => decide (2 ≤ c.length)).map
      fun c => ({ idxs := c, best_fitness := ⊤, best_node := none } : Territory)) ≠ [] := by
    simpa using hts
  have hT : initialize_territories n k = ((chunkIdxs n k).filter
      fun c => decide (2 ≤ c.length)).map
      fun c => { idxs := c, best_fitness := ⊤, best_node := none } := by
    simp only [initialize_territories]
    rw [if_neg htsmap]
  have hmemT : ∀ t : Territory, t ∈ initialize_territories n k ↔
      ∃ c, (c ∈ chunkIdxs n k ∧ 2 ≤ c.length) ∧
        t = { idxs := c, best_fitness := ⊤, best_node := none } := by
    intro t
    rw [hT]
    simp only [List.mem_map, List.mem_filter, decide_eq_true_eq]
    constructor
    · rintro ⟨c, hc, rfl⟩
      exact ⟨c, hc, rfl⟩
    · rintro ⟨c, hc, rfl⟩
      exact ⟨c, hc, rfl⟩
  have hchunk_shape : ∀ c ∈ chunkIdxs n k,
      ∃ cc, cc < (n + k - 1) / k ∧ c = List.range' (cc * k) (min k (n - cc * k)) := by
    intro c hc
    simp only [chunkIdxs, List.mem_map, List.mem_range] at hc
    obtain ⟨cc, hcc, rfl⟩ := hc
    exact ⟨cc, hcc, rfl⟩
  refine ⟨?_, ?_, ?_, ?_⟩
  · intro t ht
    obtain ⟨c, ⟨hcm, hcl⟩, rfl⟩ := (hmemT t).mp ht
    obtain ⟨cc, hcc, rfl⟩ := hchunk_shape _ hcm
    refine ⟨hcl, ?_, cc * k, ?_⟩
    · rw [List.length_range']
      exact min_le_left _ _
    · rw [List.length_range']
  · rw [hT, List.pairwise_map]
    apply List.Pairwise.filter
    simp only [chunkIdxs, List.pairwise_map]
    have hpl : List.Pairwise (· < ·) (List.range ((n + k - 1) / k)) := List.pairwise_lt_range _
    refine hpl.imp ?_
    intro c1 c2 hlt j hj1 hj2
    have e1 := territory_unique n k hk0 hj1
    have e2 := territory_unique n k hk0 hj2
    omega
  · intro j hj
    constructor
    · rintro ⟨t, ht, hjt⟩ ⟨hmod, rfl⟩
      obtain ⟨c, ⟨hcm, hcl⟩, rfl⟩ := (hmemT t).mp ht
      obtain ⟨cc, hcc, rfl⟩ := hchunk_shape _ hcm
      have e1 := territory_unique n k hk0 hjt
      have hdm := Nat.div_add_mod n k
      rw [Nat.mul_comm] at hdm
      -- n % k = 1, so n - 1 = (n / k) * k and the block containing it has length 1
      have hj1 : n - 1 = n / k * k := by omega
      have e2 : (n - 1) / k = n / k := by
        rw [hj1]
        exact Nat.mul_div_cancel _ hk0
      rw [List.length_range'] at hcl
      have hcc2 : cc = n / k := by omega
      subst hcc2
      omega
    · intro hnot
      have hcov := territory_cover n k hk2 hj
      have hlen2 : 2 ≤ min k (n - j / k * k) := by
        have h1 : j / k * k ≤ j := Nat.div_mul_le_self j k
        rcases Nat.lt_or_ge (n - j / k * k) 2 with hsmall | hbig
        · exfalso
          -- the trailing block has a single element: j = n - 1 and n % k = 1
          have hj2 := hcov.2
          rw [List.mem_range'_1] at hj2
          have hjeq : j = j / k * k := by omega
          have hneq : n = j / k * k + 1 := by omega
          apply hnot
          constructor
          · rw [hneq, Nat.add_comm, Nat.add_mul_mod_self_right]
            exact Nat.mod_eq_of_lt (by omega)
          · omega
        · omega
      refine ⟨⟨List.range' (j / k * k) (min k (n - j / k * k)), ⊤, none⟩, ?_, hcov.2⟩
      rw [hmemT]
      refine ⟨_, ⟨?_, ?_⟩, rfl⟩
      · simp only [chunkIdxs, List.mem_map, List.mem_range]
        exact ⟨j / k, hcov.1, rfl⟩
      · rw [List.length_range']
        exact hlen2
  · intro t ht j hjt
    obtain ⟨c, ⟨hcm, -⟩, rfl⟩ := (hmemT t).mp ht
    obtain ⟨cc, hcc, rfl⟩ := hchunk_shape _ hcm
    have hlt := territory_chunk_lt n k hcc
    rw [List.mem_range'_1] at hjt
    have hmin : min k (n - cc * k) ≤ n - cc * k := min_le_right _ _
    omega

theorem territories_fallback (n : ℕ) (hn : n < 2) :
    initialize_territories n (max 5 (n / 4)) =
      [{ idxs := List.range n, best_fitness := ⊤, best_node := none }] := by
  interval_cases n <;> rfl

/-! ### Concrete instances used by the claim witnesses and counterexamples -/

/-- A constant oracle for the constructors: every node gets 8000 capacity. -/
def g0 : InitRand := ⟨fun _ => 0, fun _ => 0, fun _ => 0, fun _ => 0, fun _ => 0, fun _ => 0⟩

/-- Same pool, but every generated task requires 4000 mips. -/
def gT : InitRand := ⟨fun _ => 0, fun _ => 0, fun _ => 0, fun _ => 0, fun _ => 3800, fun _ => 0⟩

/-- Node 0 gets capacity 16000, the others 8000; tasks require 4000 mips. -/
def gBig : InitRand :=
  ⟨fun _ => 0, fun i => if i = 0 then 2000 else 0, fun _ => 0, fun _ => 0, fun _ => 3800,
    fun _ => 0⟩

/-- A task demanding `m` mips (generated when `randint` draws `m`). -/
def tsk (m : ℚ) : Task := { id := 0, length := m, pe := 1, mips_required := m, priority := 1 }

/-- Lion randomness that never explores (all `random() < 0.7` rolls fail). -/
def lr0 : LionRand := ⟨fun _ => false, fun _ _ => 0⟩

/-- Allocation randomness with the Bat draw `q` and choice index `p`. -/
def arB (q : ℚ) (p : ℕ) : AllocRand := ⟨lr0, ⟨q, p⟩, ⟨true, 0⟩⟩

/-- Run randomness: random-first Bat placements on node 0, one failure
injection after the fourth task whose migration attempt is doomed. -/
def R5 : ℕ → StepRand := fun i =>
  { alloc := arB (3 / 4) 0, doFail := decide (i = 3), failr := ⟨0, true⟩, mig := arB 0 0 }

/-- One run-loop iteration of the Crow strategy with fixed randomness. -/
def sr0 : StepRand := { alloc := arB 0 0, doFail := false, failr := ⟨0, true⟩, mig := arB 0 0 }

/-! ### The claims -/

/-- C2: starting from a freshly generated pool, after any number of
`simulate_failure` calls the failed-node count never exceeds
`max(1, num_nodes // 10)`; and whenever the active-node count is at most 3
(the operational minimum) or the failed count already meets the cap,
`simulate_failure` returns leaving the entire state unchanged. -/
theorem c2_failure_cap_and_noop (k : AlgKind) (g : InitRand) (n m : ℕ)
    (cs : List (FailRand × AllocRand)) :
    countFailed (simFold k cs (mkAlgState g n m)) ≤ max 1 (n / 10) ∧
    ∀ (s : AlgState) (fr : FailRand) (mig : AllocRand),
      s.min_nodes_for_operation = 3 →
      ((aliveIdxs s).length ≤ 3 ∨ max 1 (s.num_nodes / 10) ≤ countFailed s) →
      simulate_failure k fr mig s = (true, s) := by
  constructor
  · have h0 : countFailed (mkAlgState g n m) ≤ max 1 ((mkAlgState g n m).num_nodes / 10) := by
      rw [countFailed_mk]
      exact Nat.zero_le _
    exact simFold_bound k cs (mkAlgState g n m) h0
  · intro s fr mig hmin h
    apply simulate_failure_noop
    rcases h with h | h
    · left
      rw [hmin]
      exact h
    · right
      exact h

theorem c2_failure_cap_and_noop_witness :
    countFailed (simFold .bat [(⟨0, true⟩, arB 0 0)] (mkAlgState g0 2 0)) ≤ max 1 (2 / 10) ∧
    simulate_failure .bat ⟨0, true⟩ (arB 0 0) (mkAlgState g0 2 0) =
      (true, mkAlgState g0 2 0) := by
  refine ⟨(c2_failure_cap_and_noop .bat g0 2 0 [(⟨0, true⟩, arB 0 0)]).1,
    (c2_failure_cap_and_noop .bat g0 2 0 []).2 (mkAlgState g0 2 0) ⟨0, true⟩ (arB 0 0) rfl
      (Or.inl ?_)⟩
  have h : (aliveIdxs (mkAlgState g0 2 0)).length = 2 := by with_unfolding_all rfl
  rw [h]
  omega

/-- C3: whenever an `allocate_task` call of any variant increases some
node's `current_load`, that node was not failed and had positive capacity
at the moment of the call. -/
theorem c3_active_target (k : AlgKind) (r : AllocRand) (task : Task) (s : AlgState) (i : ℕ)
    (h : (nd s i).current_load < (nd (allocate_task k r task s).2 i).current_load) :
    (nd s i).failed = false ∧ 0 < (nd s i).capacity := by
  obtain ⟨-, -, -, -, hfalse, hplaced⟩ := allocate_task_spec k r task s
  rcases hres : (allocate_task k r task s).1 with - | b
  · have hn := hfalse (by rw [hres]; simp)
    rw [nd_nodes_eq hn] at h
    exact absurd h (lt_irrefl _)
  · cases b
    · have hn := hfalse (by rw [hres]; simp)
      rw [nd_nodes_eq hn] at h
      exact absurd h (lt_irrefl _)
    · obtain ⟨j, d, hf, hc, hj, hdle, hdpos, hload, hcap, hother⟩ := hplaced hres
      rcases eq_or_ne i j with rfl | hij
      · exact ⟨hf, hc⟩
      · exact absurd h (not_lt.mpr (hother i hij))

theorem c3_active_target_witness :
    (nd (mkAlgState g0 2 1) 0).failed = false ∧ 0 < (nd (mkAlgState g0 2 1) 0).capacity := by
  apply c3_active_target .bat (arB 0 0) (tsk 4000) (mkAlgState g0 2 1) 0
  have h1 : (nd (mkAlgState g0 2 1) 0).current_load = 0 := by with_unfolding_all rfl
  have h2 : (nd (allocate_task .bat (arB 0 0) (tsk 4000) (mkAlgState g0 2 1)).2
      0).current_load = 4000 := by
    with_unfolding_all rfl
  rw [h1, h2]
  norm_num

/-- C5 counterexample: a full Bat run in which the failed migration
decrements the completed-task counter below zero, so the reported
throughput is −300, outside [0, 100]. -/
theorem c5_counterexample :
    ((run .bat R5 (mkAlgState gBig 4 4)).1.map Metrics.throughput) = some (-300) ∧
    ¬ (0 ≤ (-300 : ℚ)) := by
  constructor
  · with_unfolding_all rfl
  · norm_num

/-- C5 (amended): `fault_tolerance` always lies in [0, 100] and is 100 when
no node ever failed; `throughput` is at most 100, is 0 when `num_tasks = 0`,
and is nonnegative whenever the completed-task counter is nonnegative (a
failed migration can push that counter, and hence the throughput, below 0). -/
theorem c5_metric_bounds (s : AlgState) :
    0 ≤ (calculate_metrics s).fault_tolerance ∧
    (calculate_metrics s).fault_tolerance ≤ 100 ∧
    (countFailed s = 0 → (calculate_metrics s).fault_tolerance = 100) ∧
    (calculate_metrics s).throughput ≤ 100 ∧
    (s.num_tasks = 0 → (calculate_metrics s).throughput = 0) ∧
    (0 ≤ s.completed_tasks → 0 ≤ (calculate_metrics s).throughput) := by
  simp only [calculate_metrics]
  refine ⟨?_, min_le_left _ _, ?_, min_le_left _ _, ?_, ?_⟩
  · refine le_min (by norm_num) ?_
    split
    · norm_num
    · have h1 : (0 : ℚ) ≤ ((s.nodes.filter (·.failed)).filter
          fun n => decide (n.current_load = 0)).length := Nat.cast_nonneg _
      have h2 : (0 : ℚ) ≤ (s.nodes.filter (·.failed)).length := Nat.cast_nonneg _
      positivity
  · intro h0
    have hnil : s.nodes.filter (·.failed) = [] := List.length_eq_zero.mp h0
    rw [if_pos hnil]
    norm_num
  · intro h0
    rw [if_neg (by omega : ¬ 0 < s.num_tasks)]
    norm_num
  · intro hc
    refine le_min (by norm_num) ?_
    split
    · have h1 : (0 : ℚ) ≤ (s.completed_tasks : ℚ) := by exact_mod_cast hc
      have h2 : (0 : ℚ) ≤ (s.num_tasks : ℚ) := Nat.cast_nonneg _
      positivity
    · norm_num

theorem c5_metric_bounds_witness :
    (calculate_metrics (mkAlgState g0 2 0)).fault_tolerance = 100 ∧
    (calculate_metrics (mkAlgState g0 2 0)).throughput = 0 ∧
    0 ≤ (calculate_metrics (mkAlgState g0 2 0)).throughput :=
  ⟨(c5_metric_bounds _).2.2.1 (countFailed_mk g0 2 0),
   (c5_metric_bounds _).2.2.2.2.1 rfl,
   (c5_metric_bounds _).2.2.2.2.2 (le_refl 0)⟩

/-- C10: no allocation call ever changes a `failed` flag, `simulate_failure`
flips at most one flag per call and never from true back to false, and a
whole `run` never resurrects a failed node (`calculate_metrics` is a pure
reduction with no state output in this embedding). -/
theorem c10_failed_monotone :
    (∀ (k : AlgKind) (r : AllocRand) (task : Task) (s : AlgState) (i : ℕ),
      (nd (allocate_task k r task s).2 i).failed = (nd s i).failed) ∧
    (∀ (k : AlgKind) (fr : FailRand) (mig : AllocRand) (s : AlgState) (i : ℕ),
      (nd s i).failed = true → (nd (simulate_failure k fr mig s).2 i).failed = true) ∧
    (∀ (k : AlgKind) (fr : FailRand) (mig : AllocRand) (s : AlgState),
      (List.range s.nodes.length).countP
        (fun i => decide ((nd (simulate_failure k fr mig s).2 i).failed ≠
          (nd s i).failed)) ≤ 1) ∧
    (∀ (k : AlgKind) (R : ℕ → StepRand) (s : AlgState) (i : ℕ),
      (nd s i).failed = true → (nd (run k R s).2 i).failed = true) := by
  refine ⟨?_, simulate_failure_mono, simulate_failure_flips, run_failed_mono⟩
  intro k r task s i
  exact (allocate_task_spec k r task s).2.2.1 i

theorem c10_failed_monotone_witness :
    (nd (simulate_failure .bat ⟨0, true⟩ (arB 0 0)
      (setFailed (mkAlgState g0 4 1) 0)).2 0).failed = true :=
  c10_failed_monotone.2.1 .bat ⟨0, true⟩ (arB 0 0) (setFailed (mkAlgState g0 4 1) 0) 0
    (by with_unfolding_all rfl)

/-- Pool for the C1 counterexample: four 8000-capacity nodes where node 0
already carries 7000 (e.g. one 4000- and one 3000-mips placement), which is
above the 0.8 migration threshold. -/
def gL : InitRand :=
  ⟨fun _ => 0, fun _ => 0, fun _ => 0, fun _ => 0,
    fun i => if i = 0 then 3800 else 2800, fun _ => 0⟩

def sLcex : AlgState := addLoad (addLoad (mkAlgState gL 4 2) 0 4000) 0 3000

/-- C1 counterexample: in the Lion nomad phase the call returns true while
node 1's load grows by `min(0.3·7000, 4000, 8000) = 2100 ≠ 4000`, the
task's `mips_required`. -/
theorem c1_counterexample :
    (allocate_task .lion (arB 0 0) (tsk 4000) sLcex).1 = some true ∧
    (nd sLcex 1).current_load <
      (nd (allocate_task .lion (arB 0 0) (tsk 4000) sLcex).2 1).current_load ∧
    (nd (allocate_task .lion (arB 0 0) (tsk 4000) sLcex).2 1).current_load -
      (nd sLcex 1).current_load ≠ (tsk 4000).mips_required := by
  have h1 : (nd sLcex 1).current_load = 0 := by with_unfolding_all rfl
  have h2 : (nd (allocate_task .lion (arB 0 0) (tsk 4000) sLcex).2 1).current_load = 2100 := by
    with_unfolding_all rfl
  refine ⟨by with_unfolding_all rfl, ?_, ?_⟩
  · rw [h1, h2]
    norm_num
  · rw [h1, h2]
    norm_num [tsk]

/-- C1 (amended): on a successful `allocate_task` call with a positive-mips
task, exactly one node's load increases, by at most `mips_required` (the
Lion nomad phase may move less than the task's demand), never past that
node's capacity; every other node's load does not grow. -/
theorem c1_single_increase_bounded (k : AlgKind) (r : AllocRand) (task : Task)
    (s : AlgState) (hm : 0 < task.mips_required)
    (hs : (allocate_task k r task s).1 = some true) :
    ∃ j, j < s.nodes.length ∧
      (nd s j).current_load < (nd (allocate_task k r task s).2 j).current_load ∧
      (nd (allocate_task k r task s).2 j).current_load ≤ (nd s j).capacity ∧
      (nd (allocate_task k r task s).2 j).current_load - (nd s j).current_load ≤
        task.mips_required ∧
      ∀ i, i ≠ j → (nd (allocate_task k r task s).2 i).current_load ≤
        (nd s i).current_load := by
  obtain ⟨-, -, -, -, -, hplaced⟩ := allocate_task_spec k r task s
  obtain ⟨j, d, hf, hc, hj, hdle, hdpos, hload, hcap, hother⟩ := hplaced hs
  refine ⟨j, hj, ?_, hcap, ?_, hother⟩
  · rw [hload]
    have := hdpos hm
    linarith
  · rw [hload]
    linarith

theorem c1_single_increase_bounded_witness :
    0 < (tsk 4000).mips_required ∧
    (allocate_task .bat (arB 0 0) (tsk 4000) (mkAlgState g0 2 1)).1 = some true ∧
    ∃ j, j < (mkAlgState g0 2 1).nodes.length ∧
      (nd (mkAlgState g0 2 1) j).current_load <
        (nd (allocate_task .bat (arB 0 0) (tsk 4000) (mkAlgState g0 2 1)).2 j).current_load ∧
      (nd (allocate_task .bat (arB 0 0) (tsk 4000) (mkAlgState g0 2 1)).2 j).current_load ≤
        (nd (mkAlgState g0 2 1) j).capacity ∧
      (nd (allocate_task .bat (arB 0 0) (tsk 4000) (mkAlgState g0 2 1)).2 j).current_load -
        (nd (mkAlgState g0 2 1) j).current_load ≤ (tsk 4000).mips_required ∧
      ∀ i, i ≠ j →
        (nd (allocate_task .bat (arB 0 0) (tsk 4000) (mkAlgState g0 2 1)).2 i).current_load ≤
          (nd (mkAlgState g0 2 1) i).current_load :=
  ⟨by norm_num [tsk], by with_unfolding_all rfl,
    c1_single_increase_bounded .bat (arB 0 0) (tsk 4000) (mkAlgState g0 2 1)
      (by norm_num [tsk]) (by with_unfolding_all rfl)⟩

/-- Bat pool with `pulse_rate` forced to 0 (scenario B of the spec). -/
def sBat0 : AlgState := { mkAlgState gT 2 2 with pulse_rate := 0 }

def sBat1 : AlgState := (allocate_task .bat (arB 0 0) (tsk 4000) sBat0).2

/-- C6 counterexample: with `pulse_rate = 0` the `random() > pulse_rate`
gate fires, so the second placement commits to the random candidate
(node 0, utilization 1/2) although node 1 (utilization 0) is strictly less
utilized: with `pulse_rate = 0` the random-first attempt is tried, not
skipped. -/
theorem c6_counterexample :
    sBat1.pulse_rate = 0 ∧
    (allocate_task .bat (arB (1 / 2) 0) (tsk 4000) sBat1).1 = some true ∧
    (nd sBat1 0).current_load <
      (nd (allocate_task .bat (arB (1 / 2) 0) (tsk 4000) sBat1).2 0).current_load ∧
    (1 : ℕ) ∈ activeIdxs sBat1 ∧
    (nd sBat1 1).current_load / (nd sBat1 1).capacity <
      (nd sBat1 0).current_load / (nd sBat1 0).capacity := by
  have h0 : (nd sBat1 0).current_load = 4000 := by with_unfolding_all rfl
  have h0c : (nd sBat1 0).capacity = 8000 := by with_unfolding_all rfl
  have h1 : (nd sBat1 1).current_load = 0 := by with_unfolding_all rfl
  have h1c : (nd sBat1 1).capacity = 8000 := by with_unfolding_all rfl
  have h2 : (nd (allocate_task .bat (arB (1 / 2) 0) (tsk 4000) sBat1).2 0).current_load
      = 8000 := by
    with_unfolding_all rfl
  have hact : activeIdxs sBat1 = [0, 1] := by with_unfolding_all rfl
  refine ⟨by with_unfolding_all rfl, by with_unfolding_all rfl, ?_, ?_, ?_⟩
  · rw [h0, h2]
    norm_num
  · rw [hact]
    simp
  · rw [h0, h0c, h1, h1c]
    norm_num

/-- C6 (amended): with `pulse_rate = 1` the pulse gate can never fire
(`random() ∈ [0,1)` is never above 1), so every successful Bat placement
lands on a least-utilized active positive-capacity node. -/
theorem c6_pulse_one_least_utilized (r : BatRand) (task : Task) (s : AlgState)
    (hp : s.pulse_rate = 1) (hs : (batAllocate r task s).1 = true) :
    ∃ j, j ∈ activeIdxs s ∧
      (batAllocate r task s).2 = addLoad s j task.mips_required ∧
      ∀ i ∈ activeIdxs s,
        (nd s j).current_load / (nd s j).capacity ≤
          (nd s i).current_load / (nd s i).capacity := by
  have hfr : ¬ (s.pulse_rate < Int.fract r.q) := by
    rw [hp]
    exact not_lt.mpr (Int.fract_lt_one r.q).le
  rcases hA : argminKey (fun i => (nd s i).current_load / (nd s i).capacity) (activeIdxs s)
    with - | best
  · simp only [batAllocate, hA] at hs
    cases hs
  · simp only [batAllocate, hA] at hs ⊢
    rw [if_neg hfr] at hs ⊢
    by_cases hfit : (nd s best).current_load + task.mips_required ≤ (nd s best).capacity
    · rw [if_pos hfit]
      exact ⟨best, argminKey_mem hA, rfl, fun i hi => argminKey_le hA i hi⟩
    · rw [if_neg hfit] at hs
      cases hs

def sBatP1 : AlgState := { mkAlgState gT 2 1 with pulse_rate := 1 }

theorem c6_pulse_one_least_utilized_witness :
    sBatP1.pulse_rate = 1 ∧
    (batAllocate ⟨3 / 4, 0⟩ (tsk 4000) sBatP1).1 = true ∧
    ∃ j, j ∈ activeIdxs sBatP1 ∧
      (batAllocate ⟨3 / 4, 0⟩ (tsk 4000) sBatP1).2 = addLoad sBatP1 j (tsk 4000).mips_required ∧
      ∀ i ∈ activeIdxs sBatP1,
        (nd sBatP1 j).current_load / (nd sBatP1 j).capacity ≤
          (nd sBatP1 i).current_load / (nd sBatP1 i).capacity :=
  ⟨rfl, by with_unfolding_all rfl,
    c6_pulse_one_least_utilized ⟨3 / 4, 0⟩ (tsk 4000) sBatP1 rfl (by with_unfolding_all rfl)⟩

/-- C8 counterexample: with 6 nodes the pride size is `max(5, 1) = 5`, the
trailing slice `[5]` has a single node and is dropped, so node 5 belongs to
no territory although the fallback (whole-pool) territory was not used. -/
theorem c8_counterexample :
    initialize_territories 6 (max 5 (6 / 4)) ≠
      [{ idxs := List.range 6, best_fitness := ⊤, best_node := none }] ∧
    ¬ ∀ j < 6, ∃ t ∈ initialize_territories 6 (max 5 (6 / 4)), j ∈ t.idxs := by
  constructor
  · decide
  · decide

/-- C8 (amended): for pools of at least 2 nodes the territories are the
contiguous blocks of `pride_size = max(5, n//4)` consecutive indices (the
final block may be shorter but has at least 2 nodes), pairwise disjoint and
within bounds; they cover every node except that when `n % pride_size = 1`
the final single node belongs to no territory.  For pools of fewer than 2
nodes a single fallback territory holding the whole pool is used. -/
theorem c8_territories (n : ℕ) :
    (2 ≤ n →
      (∀ t ∈ initialize_territories n (max 5 (n / 4)), 2 ≤ t.idxs.length ∧
        t.idxs.length ≤ max 5 (n / 4) ∧ ∃ a, t.idxs = List.range' a t.idxs.length) ∧
      List.Pairwise (fun t1 t2 : Territory => ∀ j, j ∈ t1.idxs → j ∉ t2.idxs)
        (initialize_territories n (max 5 (n / 4))) ∧
      (∀ j, j < n → ((∃ t ∈ initialize_territories n (max 5 (n / 4)), j ∈ t.idxs) ↔
        ¬(n % max 5 (n / 4) = 1 ∧ j = n - 1))) ∧
      (∀ t ∈ initialize_territories n (max 5 (n / 4)), ∀ j ∈ t.idxs, j < n)) ∧
    (n < 2 → initialize_territories n (max 5 (n / 4)) =
      [{ idxs := List.range n, best_fitness := ⊤, best_node := none }]) :=
  ⟨territories_structure n, territories_fallback n⟩

theorem c8_territories_witness :
    (∃ t ∈ initialize_territories 7 (max 5 (7 / 4)), 3 ∈ t.idxs) ∧
    initialize_territories 1 (max 5 (1 / 4)) =
      [{ idxs := List.range 1, best_fitness := ⊤, best_node := none }] := by
  constructor
  · exact (((c8_territories 7).1 (by norm_num)).2.2.1 3 (by norm_num)).mpr (by decide)
  · exact (c8_territories 1).2 (by norm_num)

/-- State for the C4 scenario: a fresh 4-node pool after one Bat placement
of 4000 mips on node 0. -/
def sC4 : AlgState := (allocate_task .bat (arB 0 0) (tsk 4000) (mkAlgState g0 4 1)).2

/-- C4 counterexample: `simulate_failure` marks node 0 failed with load
4000, the migration of the synthetic task succeeds, yet afterwards the node
still has `failed = true` — the code never resets the flag to false. -/
theorem c4_counterexample :
    sC4.min_nodes_for_operation < (aliveIdxs sC4).length ∧
    countFailed sC4 < max 1 (sC4.num_nodes / 10) ∧
    (aliveIdxs sC4).getD (0 % (aliveIdxs sC4).length) 0 = 0 ∧
    0 < (nd (setFailed sC4 0) 0).current_load ∧
    (allocate_task .bat (arB 0 0)
      { id := -1
        mips_required := (nd (setFailed sC4 0) 0).current_load
        length := (nd (setFailed sC4 0) 0).current_load
        pe := 1
        priority := 1 } (setFailed sC4 0)).1 = some true ∧
    (nd (simulate_failure .bat ⟨0, true⟩ (arB 0 0) sC4).2 0).current_load = 0 ∧
    (nd (simulate_failure .bat ⟨0, true⟩ (arB 0 0) sC4).2 0).failed = true := by
  have halive : (aliveIdxs sC4).length = 4 := by with_unfolding_all rfl
  have hcount : countFailed sC4 = 0 := by with_unfolding_all rfl
  have hload : (nd (setFailed sC4 0) 0).current_load = 4000 := by with_unfolding_all rfl
  refine ⟨?_, ?_, by with_unfolding_all rfl, ?_, by with_unfolding_all rfl,
    by with_unfolding_all rfl, by with_unfolding_all rfl⟩
  · rw [halive]
    with_unfolding_all decide
  · rw [hcount]
    with_unfolding_all decide
  · rw [hload]
    norm_num

/-- C4 (amended): if `simulate_failure` marks a loaded node failed and the
migration of the synthetic task (sentinel id −1) succeeds, the node's load
is reset to 0 but its `failed` flag remains true — the node is drained, not
reactivated. -/
theorem c4_migration_drains_failed_node (k : AlgKind) (fr : FailRand) (mig : AllocRand)
    (s : AlgState) (node : ℕ)
    (hnode : node = (aliveIdxs s).getD (fr.pick % (aliveIdxs s).length) 0)
    (h1 : s.min_nodes_for_operation < (aliveIdxs s).length)
    (h2 : countFailed s < max 1 (s.num_nodes / 10))
    (h3 : fr.roll = true)
    (h4 : 0 < (nd (setFailed s node) node).current_load)
    (h5 : (allocate_task k mig
      { id := -1
        mips_required := (nd (setFailed s node) node).current_load
        length := (nd (setFailed s node) node).current_load
        pe := 1
        priority := 1 } (setFailed s node)).1 = some true) :
    (nd (simulate_failure k fr mig s).2 node).current_load = 0 ∧
    (nd (simulate_failure k fr mig s).2 node).failed = true := by
  have hlen : 0 < (aliveIdxs s).length := by omega
  have hmem : node ∈ aliveIdxs s := by
    rw [hnode, List.getD_eq_getElem _ _ (Nat.mod_lt _ hlen)]
    exact List.getElem_mem _
  have hnlt : node < s.nodes.length := (mem_aliveIdxs.mp hmem).2
  subst hnode
  simp only [simulate_failure]
  rw [if_neg (not_le.mpr h1), if_neg (not_le.mpr h2), h3, if_pos rfl, if_pos h4]
  rcases hM : allocate_task k mig
      { id := -1
        mips_required := (nd (setFailed s
          ((aliveIdxs s).getD (fr.pick % (aliveIdxs s).length) 0))
          ((aliveIdxs s).getD (fr.pick % (aliveIdxs s).length) 0)).current_load
        length := (nd (setFailed s
          ((aliveIdxs s).getD (fr.pick % (aliveIdxs s).length) 0))
          ((aliveIdxs s).getD (fr.pick % (aliveIdxs s).length) 0)).current_load
        pe := 1
        priority := 1 }
      (setFailed s ((aliveIdxs s).getD (fr.pick % (aliveIdxs s).length) 0))
    with ⟨res, s2⟩
  rw [hM] at h5
  simp only at h5
  subst h5
  simp only [hM]
  obtain ⟨-, hlen2, hfail2, -, -, -⟩ := by
    have h := allocate_task_spec k mig
      { id := -1
        mips_required := (nd (setFailed s
          ((aliveIdxs s).getD (fr.pick % (aliveIdxs s).length) 0))
          ((aliveIdxs s).getD (fr.pick % (aliveIdxs s).length) 0)).current_load
        length := (nd (setFailed s
          ((aliveIdxs s).getD (fr.pick % (aliveIdxs s).length) 0))
          ((aliveIdxs s).getD (fr.pick % (aliveIdxs s).length) 0)).current_load
        pe := 1
        priority := 1 }
      (setFailed s ((aliveIdxs s).getD (fr.pick % (aliveIdxs s).length) 0))
    rw [hM] at h
    exact h
  have hn2 : (aliveIdxs s).getD (fr.pick % (aliveIdxs s).length) 0 < s2.nodes.length := by
    rw [hlen2, setFailed_length]
    exact hnlt
  constructor
  · rw [show (nd (setLoad s2 ((aliveIdxs s).getD (fr.pick % (aliveIdxs s).length) 0) 0)
      ((aliveIdxs s).getD (fr.pick % (aliveIdxs s).length) 0)) =
        { nd s2 ((aliveIdxs s).getD (fr.pick % (aliveIdxs s).length) 0) with
          current_load := 0 } from nd_setLoad_self hn2 0]
  · rw [nd_setLoad_failed, hfail2]
    rw [show nd (setFailed s ((aliveIdxs s).getD (fr.pick % (aliveIdxs s).length) 0))
        ((aliveIdxs s).getD (fr.pick % (aliveIdxs s).length) 0) =
      { nd s ((aliveIdxs s).getD (fr.pick % (aliveIdxs s).length) 0) with
        failed := true } from nd_setFailed_self hnlt]

theorem c4_migration_drains_failed_node_witness :
    (nd (simulate_failure .bat ⟨0, true⟩ (arB 0 0) sC4).2 0).current_load = 0 ∧
    (nd (simulate_failure .bat ⟨0, true⟩ (arB 0 0) sC4).2 0).failed = true := by
  apply c4_migration_drains_failed_node .bat ⟨0, true⟩ (arB 0 0) sC4 0
  · with_unfolding_all rfl
  · have h : (aliveIdxs sC4).length = 4 := by with_unfolding_all rfl
    rw [h]
    with_unfolding_all decide
  · have h : countFailed sC4 = 0 := by with_unfolding_all rfl
    rw [h]
    with_unfolding_all decide
  · rfl
  · have h : (nd (setFailed sC4 0) 0).current_load = 4000 := by with_unfolding_all rfl
    rw [h]
    norm_num
  · with_unfolding_all rfl

/-- The first Crow run-loop iteration from a fresh 2-node pool. -/
def sCrow1 : AlgState := (runStep .crow sr0 (tsk 4000) (mkAlgState gT 2 2)).2

/-- C7: through the public lifecycle the Crow memory always holds one slot
per original pool index (slot `i` remembers node `i`), the call never
raises, and on every `allocate_task` call each present slot whose
remembered node is still active is refreshed to that node's live load. -/
theorem c7_crow_memory (g : InitRand) (n m : ℕ) (s : AlgState)
    (h : Reach .crow (mkAlgState g n m) s) :
    s.memory.length = s.nodes.length ∧
    (∀ i p, s.memory.get? i = some (some p) → p.1 = i) ∧
    (∀ (r : AllocRand) (task : Task),
      (allocate_task .crow r task s).1 ≠ none ∧
      ∀ i l, s.memory.get? i = some (some (i, l)) →
        (nd s i).failed = false → 0 < (nd s i).capacity →
        (allocate_task .crow r task s).2.memory.get? i =
          some (some (i, (nd s i).current_load))) := by
  have hInv := reach_crowInv h
  refine ⟨hInv.1, crowInv_slot_id hInv, ?_⟩
  intro r task
  obtain ⟨h1, -, -, h4⟩ := crowAllocate_inv task s hInv
  exact ⟨h1, h4⟩

theorem c7_crow_memory_witness :
    sCrow1.memory.length = sCrow1.nodes.length ∧
    (allocate_task .crow (arB 0 0) (tsk 4000) sCrow1).1 ≠ none ∧
    (allocate_task .crow (arB 0 0) (tsk 4000) sCrow1).2.memory.get? 0 =
      some (some (0, (nd sCrow1 0).current_load)) := by
  have h := c7_crow_memory gT 2 2 sCrow1
    (Reach.step sr0 (tsk 4000) (Reach.init (mkAlgState gT 2 2)) (by with_unfolding_all rfl))
  refine ⟨h.1, (h.2.2 (arB 0 0) (tsk 4000)).1, ?_⟩
  refine (h.2.2 (arB 0 0) (tsk 4000)).2 0 0 ?_ ?_ ?_
  · with_unfolding_all rfl
  · with_unfolding_all rfl
  · have hc : (nd sCrow1 0).capacity = 8000 := by with_unfolding_all rfl
    rw [hc]
    norm_num

/-- Memory state after four Crow placements fill the 2-node pool. -/
def crowStep (s : AlgState) : AlgState := (allocate_task .crow (arB 0 0) (tsk 4000) s).2

def sCrow4 : AlgState := crowStep (crowStep (crowStep (crowStep (mkAlgState gT 2 5))))

/-- C9 counterexample: the fifth Crow call returns false (no node fits the
task), yet its memory-refresh step has mutated the strategy state: slot 1
is updated from the stale load 4000 to the live load 8000. -/
theorem c9_counterexample :
    (allocate_task .crow (arB 0 0) (tsk 4000) sCrow4).1 = some false ∧
    (allocate_task .crow (arB 0 0) (tsk 4000) sCrow4).2.memory ≠ sCrow4.memory := by
  have h1 : (allocate_task .crow (arB 0 0) (tsk 4000) sCrow4).2.memory =
      [some (0, 8000), some (1, 8000)] := by
    with_unfolding_all rfl
  have h2 : sCrow4.memory = [some (0, 8000), some (1, 4000)] := by
    with_unfolding_all rfl
  refine ⟨by with_unfolding_all rfl, ?_⟩
  rw [h1, h2]
  intro hcontra
  simp only [List.cons.injEq, Option.some.injEq, Prod.mk.injEq] at hcontra
  exact absurd hcontra.2.1.2 (by norm_num)

/-- C9 (amended): `allocate_task` never raises (for Crow, from any state
reachable through the lifecycle; the other variants are total), and on a
false return the node pool and the completed-task counter are unchanged.
Strategy-internal caches (the Lion nomad set, the Crow memory) may still be
initialized or refreshed by a failing call. -/
theorem c9_no_pool_mutation_on_false :
    (∀ (k : AlgKind) (r : AllocRand) (task : Task) (s : AlgState), k ≠ .crow →
      (allocate_task k r task s).1 ≠ none) ∧
    (∀ (g : InitRand) (n m : ℕ) (s : AlgState), Reach .crow (mkAlgState g n m) s →
      ∀ (r : AllocRand) (task : Task), (allocate_task .crow r task s).1 ≠ none) ∧
    (∀ (k : AlgKind) (r : AllocRand) (task : Task) (s : AlgState),
      (allocate_task k r task s).1 = some false →
      (allocate_task k r task s).2.nodes = s.nodes ∧
      (allocate_task k r task s).2.completed_tasks = s.completed_tasks) := by
  refine ⟨?_, ?_, ?_⟩
  · intro k r task s hk
    cases k
    · simp [allocate_task]
    · simp [allocate_task]
    · exact absurd rfl hk
    · simp [allocate_task]
  · intro g n m s hreach r task
    exact (crowAllocate_inv task s (reach_crowInv hreach)).1
  · intro k r task s hres
    obtain ⟨hfr, -, -, -, hfalse, -⟩ := allocate_task_spec k r task s
    exact ⟨hfalse (by rw [hres]; simp), hfr.2.2.2.2.2.1⟩

theorem c9_no_pool_mutation_on_false_witness :
    (allocate_task .bat (arB 0 0) (tsk 4000) (mkAlgState gT 2 1)).1 ≠ none ∧
    (allocate_task .crow (arB 0 0) (tsk 4000) (mkAlgState gT 2 1)).1 ≠ none ∧
    (allocate_task .crow (arB 0 0) (tsk 4000) sCrow4).2.nodes = sCrow4.nodes :=
  ⟨c9_no_pool_mutation_on_false.1 .bat (arB 0 0) (tsk 4000) (mkAlgState gT 2 1)
      (by intro h; cases h),
   c9_no_pool_mutation_on_false.2.1 gT 2 1 (mkAlgState gT 2 1)
      (Reach.init (mkAlgState gT 2 1)) (arB 0 0) (tsk 4000),
   (c9_no_pool_mutation_on_false.2.2 .crow (arB 0 0) (tsk 4000) sCrow4
      (by with_unfolding_all rfl)).1⟩

end MH
